/-
Verification of the libbrillo event-loop adapter (`brillo::BaseMessageLoop`,
called the "Reactor" in the design document) and of the `chromeos::http`
request/response layer.

The repository ships the Reactor's header `brillo/message_loops/base_message_loop.h`
(declarations, field initializers and documentation comments); the method bodies
live in `base_message_loop.cc`, which is not part of the provided sources.  The
Reactor operations below are therefore modelled from the design document
(sections 3-5 and 9), each marked `Modelled from the spec:` in its doc comment.
The HTTP layer (`chromeos/http/http_request.cc`) is present in full and is
embedded directly from the source.
-/
import Mathlib

namespace Brillo

/-- Source `MessageLoop::TaskId`: an integer handle, one per scheduled delayed task or
descriptor watch. -/
abbrev TaskId := Nat

/-- Source `MessageLoop::kTaskIdNull`: the reserved sentinel denoting "no task". -/
def kTaskIdNull : TaskId := 0

/-- Source `MessageLoop::WatchMode`: whether a descriptor watch fires on readability,
writability, or both. -/
inductive WatchMode where
  | kWatchRead
  | kWatchWrite
  | kWatchReadWrite
deriving DecidableEq, Repr

/-- Modelled from the spec: design note 9 prescribes a tri-state per watch
entry, {idle, notified-pending-dispatch, canceled-pending-drain}, replacing the
`posted_task_pending_` flag plus cleared-closure encoding of the source header.
`pendingDispatch` is `posted_task_pending_ = true` with a live closure;
`canceledPendingDrain` is `posted_task_pending_ = true` after cancellation. -/
inductive IOTaskState where
  | idle
  | pendingDispatch
  | canceledPendingDrain
deriving DecidableEq, Repr

/-- Source `BaseMessageLoop::DelayedTask` (header lines 67-72): the location tag, the
assigned `task_id` and the stored closure.  `deadline` is the absolute time at
which the armed one-shot OS timer is due; closures are abstracted as integer
identifiers since only their identity is observable. -/
structure DelayedTask where
  location : Nat
  task_id : TaskId
  deadline : Nat
  closure : Nat
deriving DecidableEq, Repr

/-- Source `BaseMessageLoop::IOTask` (header lines 76-127): the watch entry holding the
arguments of `WatchFileDescriptor` plus the assigned `task_id`, the `watching`
state of the OS-level `fd_watcher_`, and the dispatch tri-state (see
`IOTaskState`). -/
structure IOTask where
  location : Nat
  task_id : TaskId
  fd : Int
  mode : WatchMode
  persistent : Bool
  closure : Nat
  watching : Bool
  dispatch_state : IOTaskState
deriving DecidableEq, Repr

/-- The Reactor state (spec section 3): the allocator cursor `last_id`, the
delayed-task registry, the descriptor-watch registry, the `run_once` flag and
the running/quit control state.  `clock` is the ambient time used to turn
relative delays into deadlines.  The registries of the source are `std::map`s;
here they are lists whose key uniqueness is the well-formedness invariant
`Reactor.WF`. -/
structure Reactor where
  last_id : TaskId
  clock : Nat
  delayed_tasks : List DelayedTask
  io_tasks : List IOTask
  run_once : Bool
  running : Bool
deriving DecidableEq, Repr

namespace Reactor

/-- The freshly constructed Reactor: `last_id_{kTaskIdNull}`, `run_once_{false}`
(header lines 132, 137), empty registries, not running. -/
def init : Reactor :=
  { last_id := kTaskIdNull
    clock := 0
    delayed_tasks := []
    io_tasks := []
    run_once := false
    running := false }

/-- Lookup of `task_id` in the `delayed_tasks_` map. -/
def findDelayed (st : Reactor) (id : TaskId) : Option DelayedTask :=
  st.delayed_tasks.find? (fun t => t.task_id == id)

/-- Lookup of `task_id` in the `io_tasks_` map. -/
def findIOTask (st : Reactor) (id : TaskId) : Option IOTask :=
  st.io_tasks.find? (fun t => t.task_id == id)

/-- Removal of `task_id` from the `delayed_tasks_` map. -/
def eraseDelayed (st : Reactor) (id : TaskId) : List DelayedTask :=
  st.delayed_tasks.filter (fun t => !(t.task_id == id))

/-- Removal of `task_id` from the `io_tasks_` map. -/
def eraseIOTask (st : Reactor) (id : TaskId) : List IOTask :=
  st.io_tasks.filter (fun t => !(t.task_id == id))

/-- Modelled from the spec: `NextTaskId()` (section 4.1) "returns a
previously-unused, monotonically increasing identifier; never returns the null
sentinel ... No side effects beyond advancing the cursor."  With `TaskId` as an
unbounded natural the overflow wrap (a fatal invariant violation, not handled)
cannot occur. -/
def NextTaskId (st : Reactor) : TaskId × Reactor :=
  (st.last_id + 1, { st with last_id := st.last_id + 1 })

/-- Modelled from the spec: `PostDelayedTask(callback, delay)` (section 4.2)
allocates a TaskId, stores a DelayedTask keyed by it and arms an OS-level
one-shot timer carrying the TaskId; returns the TaskId and never fails
synchronously.  The armed timer is modelled by the `timerFire` event, which may
arrive at any later step (including stale). -/
def PostDelayedTask (st : Reactor) (location : Nat) (closure : Nat) (delay : Nat) :
    TaskId × Reactor :=
  let (id, st') := st.NextTaskId
  (id, { st' with delayed_tasks :=
          ⟨location, id, st.clock + delay, closure⟩ :: st'.delayed_tasks })

/-- Modelled from the spec: `WatchFileDescriptor(fd, mode, persistent, callback)`
(section 4.3) allocates a TaskId, constructs a WatchEntry and arms an OS-level
readiness watch; on registration failure it returns the null sentinel and
registers nothing.  `armOk` is the OS's verdict on arming the watch. -/
def WatchFileDescriptor (st : Reactor) (location : Nat) (fd : Int) (mode : WatchMode)
    (persistent : Bool) (closure : Nat) (armOk : Bool) : TaskId × Reactor :=
  if armOk then
    let (id, st') := st.NextTaskId
    (id, { st' with io_tasks :=
            ⟨location, id, fd, mode, persistent, closure, true, .idle⟩ :: st'.io_tasks })
  else
    (kTaskIdNull, st)

/-- Modelled from the spec: the dispatch routine `OnRanPostedTask(task_id)`
(section 4.2) "looks up `task_id` in `delayed_tasks`; if present, removes the
entry and invokes its callback; if absent (already canceled), does nothing."
Returns the fired DelayedTask (whose closure is the invoked callback), or
`none` on a stale fire. -/
def OnRanPostedTask (st : Reactor) (id : TaskId) : Reactor × Option DelayedTask :=
  match st.findDelayed id with
  | some t => ({ st with delayed_tasks := st.eraseDelayed id }, some t)
  | none => (st, none)

/-- Modelled from the spec: the readiness notification path (section 4.3).  When
the OS reports the watched descriptor ready, the WatchEntry does not invoke the
user callback synchronously; it posts a follow-up `OnFileReadyPostedTask` unit
of work and records it in the `posted_task_pending` flag (state
`pendingDispatch`).  The OS-level watch stops delivering further notifications
until the follow-up has run.  A notification for an id that is absent, already
pending, drained, or not watching is discarded. -/
def OnFileReady (st : Reactor) (id : TaskId) : Reactor :=
  match st.findIOTask id with
  | some t =>
      if t.watching && t.dispatch_state == .idle then
        { st with io_tasks := st.io_tasks.map (fun u =>
            if u.task_id == id then
              { u with watching := false, dispatch_state := .pendingDispatch }
            else u) }
      else st
  | none => st

/-- Modelled from the spec: the follow-up dispatch `OnFileReadyPostedTask`
(sections 4.3 and 9).  The dispatch path checks liveness before invoking: if
the entry is absent or not pending, nothing happens; if the entry was canceled
while the dispatch was pending (`canceledPendingDrain`), the entry is drained
(destroyed) without invoking the callback; otherwise the callback is invoked,
after which a one-shot entry is removed and a persistent entry re-arms and
remains registered.  Returns the `(task_id, closure)` invoked, if any. -/
def OnFileReadyPostedTask (st : Reactor) (id : TaskId) : Reactor × Option (TaskId × Nat) :=
  match st.findIOTask id with
  | some t =>
      match t.dispatch_state with
      | .canceledPendingDrain => ({ st with io_tasks := st.eraseIOTask id }, none)
      | .pendingDispatch =>
          if t.persistent then
            ({ st with io_tasks := st.io_tasks.map (fun u =>
                if u.task_id == id then
                  { u with watching := true, dispatch_state := .idle }
                else u) }, some (id, t.closure))
          else
            ({ st with io_tasks := st.eraseIOTask id }, some (id, t.closure))
      | .idle => (st, none)
  | none => (st, none)

/-- Modelled from the spec: `CancelTask(task_id)` (sections 4.2, 4.3 and section
3's WatchEntry invariant).  A delayed task is simply removed from the registry
(the already-armed OS timer will fire harmlessly into the discard path).  A
watch entry that is idle is disarmed and destroyed; one that is mid-dispatch
must not be destroyed synchronously — it is disarmed and marked
`canceledPendingDrain' so the pending dispatch becomes a no-op.  An id that is
unknown, already fired, or already canceled yields `false` with no side
effect. -/
def CancelTask (st : Reactor) (id : TaskId) : Bool × Reactor :=
  match st.findDelayed id with
  | some _ => (true, { st with delayed_tasks := st.eraseDelayed id })
  | none =>
      match st.findIOTask id with
      | none => (false, st)
      | some t =>
          match t.dispatch_state with
          | .idle => (true, { st with io_tasks := st.eraseIOTask id })
          | .pendingDispatch =>
              (true, { st with io_tasks := st.io_tasks.map (fun u =>
                if u.task_id == id then
                  { u with watching := false, dispatch_state := .canceledPendingDrain }
                else u) })
          | .canceledPendingDrain => (false, st)

/-- Modelled from the spec: `BreakLoop()` (section 4.4) requests loop
termination; it is idempotent. -/
def BreakLoop (st : Reactor) : Reactor :=
  { st with running := false }

end Reactor

/-- Modelled from the spec: the value of the quit callback handed out by
`QuitClosure()`.  Per the header comment (lines 49-51) the callback quits the
current message loop; if the loop is not running an empty callback — one that
does nothing when run — is returned instead. -/
inductive QuitCb where
  | doNothing
  | quitLoop
deriving DecidableEq, Repr

namespace Reactor

/-- Modelled from the spec: `QuitClosure()` (section 4.4 and header lines
49-51): returns a callback that will quit the current message loop; if the
message loop is not running, an empty callback is returned. -/
def QuitClosure (st : Reactor) : QuitCb :=
  if st.running then .quitLoop else .doNothing

/-- Running a quit callback: the live closure triggers `BreakLoop()`, the empty
closure does nothing. -/
def runQuitCb (cb : QuitCb) (st : Reactor) : Reactor :=
  match cb with
  | .doNothing => st
  | .quitLoop => st.BreakLoop

end Reactor

/-- The events the Reactor reacts to.  `postDelayed`, `watchFd`, `cancel`,
`breakLoop` are API calls made by the owning thread between dispatches;
`timerFire id` is the armed one-shot OS timer firing (possibly stale, since the
OS registration cannot be removed); `fdReady id` is an OS readiness
notification for watch `id`; `runPostedDispatch id` is the posted follow-up
`OnFileReadyPostedTask` running on the loop; `tick` is the passage of time. -/
inductive Event where
  | postDelayed (location closure delay : Nat)
  | watchFd (location : Nat) (fd : Int) (mode : Brillo.WatchMode)
      (persistent : Bool) (closure : Nat) (armOk : Bool)
  | cancel (id : TaskId)
  | timerFire (id : TaskId)
  | fdReady (id : TaskId)
  | runPostedDispatch (id : TaskId)
  | breakLoop
  | tick
deriving DecidableEq, Repr

namespace Reactor

/-- One step of the Reactor: the state after the event together with the
callback invocation `(task_id, closure)` the event caused, if any.  All
registry mutation and dispatch is serialized on the single owning thread, so a
run of the system is a sequence of these steps. -/
def step (st : Reactor) : Event → Reactor × Option (TaskId × Nat)
  | .postDelayed location closure delay =>
      ((st.PostDelayedTask location closure delay).2, none)
  | .watchFd location fd mode persistent closure armOk =>
      ((st.WatchFileDescriptor location fd mode persistent closure armOk).2, none)
  | .cancel id => ((st.CancelTask id).2, none)
  | .timerFire id =>
      let (st', fired) := st.OnRanPostedTask id
      (st', fired.map (fun t => (t.task_id, t.closure)))
  | .fdReady id => (st.OnFileReady id, none)
  | .runPostedDispatch id => st.OnFileReadyPostedTask id
  | .breakLoop => (st.BreakLoop, none)
  | .tick => ({ st with clock := st.clock + 1 }, none)

/-- A run over a sequence of events, accumulating all callback invocations in
order. -/
def runEvents (st : Reactor) : List Event → Reactor × List (TaskId × Nat)
  | [] => (st, [])
  | e :: es =>
      (((st.step e).1.runEvents es).1,
       (st.step e).2.toList ++ ((st.step e).1.runEvents es).2)

/-- Well-formedness of the Reactor state: every registered id was issued by the
allocator (so it is non-null and at most the cursor `last_id`); each registry —
a `std::map` in the source — holds at most one entry per id; and the two
registries share no id, since each id is allocated for exactly one of them. -/
def WF (st : Reactor) : Prop :=
  (∀ t ∈ st.delayed_tasks, t.task_id ≠ kTaskIdNull ∧ t.task_id ≤ st.last_id) ∧
  (∀ t ∈ st.io_tasks, t.task_id ≠ kTaskIdNull ∧ t.task_id ≤ st.last_id) ∧
  (st.delayed_tasks.map (fun t => t.task_id)).Nodup ∧
  (st.io_tasks.map (fun t => t.task_id)).Nodup ∧
  (∀ t ∈ st.delayed_tasks, ∀ u ∈ st.io_tasks, t.task_id ≠ u.task_id)

instance (st : Reactor) : Decidable st.WF := by
  unfold WF
  infer_instance

/-- The identifiers produced by `n` successive `NextTaskId()` calls. -/
def iterTaskIds (st : Reactor) : Nat → List TaskId
  | 0 => []
  | n + 1 =>
      let (id, st') := st.NextTaskId
      id :: st'.iterTaskIds n

/-- An identifier is retired when no delayed task carries it and any watch entry
carrying it is a canceled husk awaiting drain.  A retired id below the
allocator cursor stays retired forever: this is the backbone of the
cancellation guarantee. -/
def retired (st : Reactor) (id : TaskId) : Prop :=
  (∀ t ∈ st.delayed_tasks, t.task_id ≠ id) ∧
  (∀ t ∈ st.io_tasks, t.task_id = id → t.dispatch_state = .canceledPendingDrain) ∧
  id ≤ st.last_id

/-- A persistent watch is live: a registered entry carries the id with its
persistent flag and closure intact, not marked for drain.  A live persistent
watch survives every event except an explicit cancellation of its own id. -/
def persLive (st : Reactor) (id : TaskId) (cl : Nat) : Prop :=
  ∃ t ∈ st.io_tasks, t.task_id = id ∧ t.persistent = true ∧ t.closure = cl ∧
    t.dispatch_state ≠ .canceledPendingDrain

end Reactor

/-- The scheduling order of the underlying wait primitive (section 5): the
earlier deadline first; equal deadlines are broken by allocation order (lower
TaskId first). -/
def taskLE (a b : DelayedTask) : Prop :=
  a.deadline < b.deadline ∨ (a.deadline = b.deadline ∧ a.task_id ≤ b.task_id)

instance (a b : DelayedTask) : Decidable (taskLE a b) := by
  unfold taskLE; infer_instance

namespace Reactor

/-- The earliest entry (in `taskLE` order) among `t :: l`. -/
def minTaskAux (t : DelayedTask) (l : List DelayedTask) : DelayedTask :=
  l.foldl (fun m u => if taskLE m u then m else u) t

/-- The delayed task the underlying wait primitive reports next: the registry
entry with the least `(deadline, task_id)`. -/
def nextDue (st : Reactor) : Option DelayedTask :=
  match st.delayed_tasks with
  | [] => none
  | t :: l => some (minTaskAux t l)

/-- Whether any delayed task or descriptor watch is outstanding. -/
def outstanding (st : Reactor) : Bool :=
  !st.delayed_tasks.isEmpty || !st.io_tasks.isEmpty

/-- The watch entry with a posted follow-up dispatch waiting to run, if any. -/
def pendingDispatchEntry (st : Reactor) : Option IOTask :=
  st.io_tasks.find? (fun t => t.dispatch_state == .pendingDispatch)

/-- The next delayed task already due (`deadline ≤ clock`), if any. -/
def dueDelayed (st : Reactor) : Option DelayedTask :=
  match st.nextDue with
  | some t => if t.deadline ≤ st.clock then some t else none
  | none => none

end Reactor

/-- The outcome of one `RunOnce` iteration: the boolean the call returns
(whether any unit of work remains pending after the iteration), whether the
iteration entered the blocking wait primitive, the state afterwards, and the
callback invocation the iteration performed, if any. -/
structure RunOnceResult where
  work_remaining : Bool
  blocked : Bool
  state : Reactor
  invoked : Option (TaskId × Nat)
deriving DecidableEq, Repr

namespace Reactor

/-- Modelled from the spec: `RunOnce(may_block)` (section 4.4) performs a single
iteration of waiting for the next ready timer or descriptor, blocking only if
`may_block` is true and at least one task or watch is outstanding, and returns
a boolean indicating whether any unit of work remains pending after the
iteration.  Work already ready — a pending follow-up dispatch, or a delayed
task whose deadline has passed — is dispatched without blocking; otherwise a
blocking iteration waits until the earliest timer deadline (a wait with only
watches outstanding sees no readiness arrive in this model and dispatches
nothing). -/
def RunOnce (st : Reactor) (may_block : Bool) : RunOnceResult :=
  match st.pendingDispatchEntry with
  | some t =>
      ⟨(st.OnFileReadyPostedTask t.task_id).1.outstanding, false,
       (st.OnFileReadyPostedTask t.task_id).1, (st.OnFileReadyPostedTask t.task_id).2⟩
  | none =>
  match st.dueDelayed with
  | some t =>
      ⟨(st.OnRanPostedTask t.task_id).1.outstanding, false,
       (st.OnRanPostedTask t.task_id).1,
       (st.OnRanPostedTask t.task_id).2.map (fun u : DelayedTask => (u.task_id, u.closure))⟩
  | none =>
      if may_block && st.outstanding then
        match st.nextDue with
        | some t =>
            ⟨({ st with clock := t.deadline }.OnRanPostedTask t.task_id).1.outstanding, true,
             ({ st with clock := t.deadline }.OnRanPostedTask t.task_id).1,
             ({ st with clock := t.deadline }.OnRanPostedTask t.task_id).2.map
               (fun u : DelayedTask => (u.task_id, u.closure))⟩
        | none => ⟨st.outstanding, true, st, none⟩
      else
        ⟨st.outstanding, false, st, none⟩

/-- Modelled from the spec: the delayed-task pump of `Run()` (sections 4.4 and
5), fuelled.  Each iteration lets the underlying wait primitive report the
outstanding delayed task with the earliest deadline (ties broken by allocation
order) and dispatches it through `OnRanPostedTask`; the fired tasks are
accumulated in order. -/
def runDelayedFuel (st : Reactor) : Nat → List DelayedTask × Reactor
  | 0 => ([], st)
  | n + 1 =>
      match st.nextDue with
      | none => ([], st)
      | some t =>
          ((st.OnRanPostedTask t.task_id).2.toList ++
             (runDelayedFuel (st.OnRanPostedTask t.task_id).1 n).1,
           (runDelayedFuel (st.OnRanPostedTask t.task_id).1 n).2)

/-- The delayed-task pump run to completion: the registry can lose at most one
entry per iteration, so `delayed_tasks.length` iterations suffice. -/
def runDelayed (st : Reactor) : List DelayedTask × Reactor :=
  st.runDelayedFuel st.delayed_tasks.length

end Reactor

/-- A Reactor that has posted one delayed task (id 1, closure 101, delay 5). -/
def stC1 : Reactor := (Reactor.init.PostDelayedTask 0 101 5).2

/-- A Reactor with one persistent read watch (id 1, closure 201) whose
follow-up dispatch is pending. -/
def stC2 : Reactor :=
  ((Reactor.init.WatchFileDescriptor 0 3 .kWatchRead true 201 true).2.OnFileReady 1)

/-- A Reactor with two delayed tasks: id 1 (closure 101, delay 50) and id 2
(closure 102, delay 10). -/
def stC3 : Reactor :=
  ((Reactor.init.PostDelayedTask 0 101 50).2.PostDelayedTask 0 102 10).2

/-- A Reactor with one one-shot read watch (id 1, closure 201) whose follow-up
dispatch is pending. -/
def stC4a : Reactor :=
  ((Reactor.init.WatchFileDescriptor 0 3 .kWatchRead false 201 true).2.OnFileReady 1)

/-- A Reactor with one persistent write watch (id 1, closure 202) whose
follow-up dispatch is pending. -/
def stC4b : Reactor :=
  ((Reactor.init.WatchFileDescriptor 0 4 .kWatchWrite true 202 true).2.OnFileReady 1)

end Brillo

namespace Chromeos
namespace Http

/-- Source `chromeos::http::kErrorDomain`, declared in `chromeos/http/http_request.h`
(not among the provided sources): the error domain used by the HTTP layer. -/
def kErrorDomain : String := "http"

/-- Source `http::request_type::kGet` (http_request.cc line 18). -/
def request_type.kGet : String := "GET"

/-- Source `http::request_type::kHead` (http_request.cc line 19). -/
def request_type.kHead : String := "HEAD"

/-- Source `http::request_header::kAccept` (http_request.cc line 29). -/
def request_header.kAccept : String := "Accept"

/-- Source `http::request_header::kContentType` (http_request.cc line 43). -/
def request_header.kContentType : String := "Content-Type"

/-- Source `http::request_header::kRange` (http_request.cc line 59). -/
def request_header.kRange : String := "Range"

/-- Source `http::response_header::kContentType` (http_request.cc line 81). -/
def response_header.kContentType : String := "Content-Type"

/-- Source `http::status_code::Continue`, declared in `chromeos/http/http_request.h`
(not among the provided sources): the standard HTTP 100 Continue status. -/
def status_code.Continue : Int := 100

/-- Source `http::status_code::BadRequest`, declared in `chromeos/http/http_request.h`
(not among the provided sources): the standard HTTP 400 Bad Request status. -/
def status_code.BadRequest : Int := 400

/-- A `chromeos::Error` as recorded through `Error::AddTo(error, location,
domain, code, message)`: the error out-parameter of the HTTP operations holds
the last error added, if any. -/
structure HttpError where
  domain : String
  code : String
  message : String
deriving DecidableEq, Repr

/-- The abstract `http::Connection` interface (`chromeos/http/http_connection.h`;
implementations live in the pluggable transport, outside this repository).  Its
behaviour on each interface call is a field: whether `FinishRequest` and
`WriteRequestData` succeed and what error they report, the response status
line, headers and body, and the request body accumulated so far. -/
structure Connection where
  finishRequestOk : Bool
  finishRequestError : Option HttpError
  writeOk : Bool
  writeError : Option HttpError
  responseStatusCode : Int
  responseStatusText : String
  responseHeaders : List (String × String)
  responseData : List Nat
  requestBody : List Nat
deriving DecidableEq, Repr

namespace Connection

/-- Source `Connection::WriteRequestData(data, size, error)`: on success the data is
appended to the request body being sent. -/
def WriteRequestData (c : Connection) (data : List Nat) :
    Bool × Connection × Option HttpError :=
  if c.writeOk then (true, { c with requestBody := c.requestBody ++ data }, none)
  else (false, c, c.writeError)

/-- Source `Connection::GetResponseHeader(header_name)`: the header value, or the empty
string when the header is absent. -/
def GetResponseHeader (c : Connection) (header_name : String) : String :=
  match c.responseHeaders.find? (fun p => p.1 == header_name) with
  | some p => p.2
  | none => ""

end Connection

/-- The abstract `http::Transport` interface: `CreateConnection` either yields a
connection or fails with an error.  Implementations (curl, fake) live outside
this repository, so the verdict is a field of the transport value. -/
structure Transport where
  createConnectionResult : Option Connection
  createConnectionError : Option HttpError
deriving DecidableEq, Repr

/-- Source `Transport::CreateConnection(transport, url, method, headers, user_agent,
referer, error)`.  The abstract transport's verdict does not depend on the
request parameters. -/
def Transport.CreateConnection (tr : Transport) (_url _method : String)
    (_headers : List (String × String)) (_user_agent _referer : String) :
    Option Connection × Option HttpError :=
  (tr.createConnectionResult,
   if tr.createConnectionResult.isSome then none else tr.createConnectionError)

/-- Source `Request::range_value_omitted` (declared in http_request.h): `uint64_t(-1)`,
the marker for an omitted end of a byte-range pair. -/
def range_value_omitted : Nat := 18446744073709551615

/-- The `http::Request` object (http_request.cc lines 103-230): the transport
(cleared once the response has been received), the connection (created lazily
by `SendRequestIfNeeded`), and the accumulated request parameters.  `headers`
models the `std::map` `headers_`. -/
structure Request where
  transport : Option Transport
  connection : Option Connection
  request_url : String
  method : String
  ranges : List (Nat × Nat)
  accept : String
  content_type : String
  referer : String
  user_agent : String
  headers : List (String × String)
deriving DecidableEq, Repr

namespace Request

/-- Source `Request::Request(url, method, transport)`: stores url, method and the
transport; a null transport is replaced by `Transport::CreateDefault()` (an
external implementation, here a caller-supplied default), so `transport` is
always non-null on a fresh Request. -/
def make (url method : String) (transport : Option Transport)
    (defaultTransport : Transport) : Request :=
  { transport := some (transport.getD defaultTransport)
    connection := none
    request_url := url
    method := method
    ranges := []
    accept := ""
    content_type := ""
    referer := ""
    user_agent := ""
    headers := [] }

/-- Source `Request::AddRange(int64_t bytes)` (http_request.cc lines 115-121): a
negative count is a suffix range `(omitted, -bytes)`, a non-negative one a
prefix range `(bytes, omitted)`. -/
def AddRange (rq : Request) (bytes : Int) : Request :=
  if bytes < 0 then
    { rq with ranges := rq.ranges ++ [(range_value_omitted, (-bytes).toNat)] }
  else
    { rq with ranges := rq.ranges ++ [(bytes.toNat, range_value_omitted)] }

/-- Source `Request::AddRange(uint64_t from_byte, uint64_t to_byte)` (http_request.cc
lines 123-125). -/
def AddRangePair (rq : Request) (from_byte to_byte : Nat) : Request :=
  { rq with ranges := rq.ranges ++ [(from_byte, to_byte)] }

/-- Source `Request::GetAccept()` (http_request.cc lines 140-142). -/
def GetAccept (rq : Request) : String :=
  rq.accept

/-- The range strings built by the loop in `SendRequestIfNeeded`
(http_request.cc lines 191-204): a pair with both ends omitted contributes
nothing; otherwise the present ends are printed around a `-`. -/
def rangeStrings (ranges : List (Nat × Nat)) : List String :=
  ranges.filterMap (fun p =>
    if p.1 ≠ range_value_omitted ∨ p.2 ≠ range_value_omitted then
      some ((if p.1 ≠ range_value_omitted then toString p.1 else "") ++ "-" ++
            (if p.2 ≠ range_value_omitted then toString p.2 else ""))
    else none)

/-- Source `Request::SendRequestIfNeeded(error)` (http_request.cc lines 184-230).  With
a live transport and no connection yet, the headers are assembled (the `Range`
header unless the method is HEAD, then `Accept`, then `Content-Type` for
non-GET/HEAD methods with a non-empty content type) and the connection created
through the transport; with a connection already present it succeeds at once.
With no transport — the response has already been received — it reports
`response_already_received` in the http error domain and fails. -/
def SendRequestIfNeeded (rq : Request) : Bool × Request × Option HttpError :=
  match rq.transport with
  | some tr =>
      match rq.connection with
      | some _ => (true, rq, none)
      | none =>
          let headers := rq.headers
          let ranges :=
            if rq.method ≠ request_type.kHead then rangeStrings rq.ranges else []
          let headers :=
            if !ranges.isEmpty then
              headers ++ [(request_header.kRange,
                           "bytes=" ++ String.intercalate "," ranges)]
            else headers
          let headers := headers ++ [(request_header.kAccept, rq.GetAccept)]
          let headers :=
            if rq.method ≠ request_type.kGet ∧ rq.method ≠ request_type.kHead ∧
                rq.content_type ≠ "" then
              headers ++ [(request_header.kContentType, rq.content_type)]
            else headers
          match tr.CreateConnection rq.request_url rq.method headers
              rq.user_agent rq.referer with
          | (some c, _) => (true, { rq with connection := some c }, none)
          | (none, err) => (false, rq, err)
  | none =>
      (false, rq, some ⟨kErrorDomain, "response_already_received",
                        "HTTP response already received"⟩)

end Request

/-- The `http::Response` object (http_request.cc lines 235-296): the connection
it was constructed from and the cached response data. -/
structure Response where
  connection : Option Connection
  response_data : List Nat
deriving DecidableEq, Repr

namespace Response

/-- Source `Response::Response(connection)` (http_request.cc lines 235-250): caches the
response data by reading it from the connection in full. -/
def make (conn : Option Connection) : Response :=
  { connection := conn
    response_data :=
      match conn with
      | some c => c.responseData
      | none => [] }

/-- Source `Response::GetStatusCode()` (http_request.cc lines 261-266): `-1` without a
connection. -/
def GetStatusCode (r : Response) : Int :=
  match r.connection with
  | none => -1
  | some c => c.responseStatusCode

/-- Source `Response::IsSuccessful()` (http_request.cc lines 256-259): the status code
lies in `[status_code::Continue, status_code::BadRequest)`. -/
def IsSuccessful (r : Response) : Bool :=
  decide (r.GetStatusCode ≥ status_code.Continue) &&
    decide (r.GetStatusCode < status_code.BadRequest)

/-- Source `Response::GetStatusText()` (http_request.cc lines 268-273). -/
def GetStatusText (r : Response) : String :=
  match r.connection with
  | none => ""
  | some c => c.responseStatusText

/-- Source `Response::GetHeader(header_name)` (http_request.cc lines 291-296). -/
def GetHeader (r : Response) (header_name : String) : String :=
  match r.connection with
  | some c => c.GetResponseHeader header_name
  | none => ""

/-- Source `Response::GetData()` (http_request.cc lines 279-281). -/
def GetData (r : Response) : List Nat :=
  r.response_data

end Response

namespace Request

/-- Source `Request::GetResponseAndBlock(error)` (http_request.cc lines 127-134): sends
the request if needed, finishes it on the connection, and on success moves the
connection into a fresh `Response` and resets the transport to record that the
response has been received. -/
def GetResponseAndBlock (rq : Request) :
    Option Response × Request × Option HttpError :=
  if (rq.SendRequestIfNeeded).1 then
    match (rq.SendRequestIfNeeded).2.1.connection with
    | some c =>
        if c.finishRequestOk then
          (some (Response.make (some c)),
           { (rq.SendRequestIfNeeded).2.1 with connection := none, transport := none },
           none)
        else (none, (rq.SendRequestIfNeeded).2.1, c.finishRequestError)
    | none => (none, (rq.SendRequestIfNeeded).2.1, (rq.SendRequestIfNeeded).2.2)
  else (none, (rq.SendRequestIfNeeded).2.1, (rq.SendRequestIfNeeded).2.2)

/-- Source `Request::AddRequestBody(data, size, error)` (http_request.cc lines
160-166): sends the request if needed, then writes the data on the
connection. -/
def AddRequestBody (rq : Request) (data : List Nat) :
    Bool × Request × Option HttpError :=
  if (rq.SendRequestIfNeeded).1 then
    match (rq.SendRequestIfNeeded).2.1.connection with
    | some c =>
        ((c.WriteRequestData data).1,
         { (rq.SendRequestIfNeeded).2.1 with
             connection := some (c.WriteRequestData data).2.1 },
         (c.WriteRequestData data).2.2)
    | none => (false, (rq.SendRequestIfNeeded).2.1, (rq.SendRequestIfNeeded).2.2)
  else (false, (rq.SendRequestIfNeeded).2.1, (rq.SendRequestIfNeeded).2.2)

end Request

/-- The error recorded by `SendRequestIfNeeded` when the transport has been
cleared: the response has already been received. -/
def responseAlreadyReceivedError : HttpError :=
  ⟨kErrorDomain, "response_already_received", "HTTP response already received"⟩

/-- A connection whose request finishes successfully with a 200 response. -/
def connW : Connection := ⟨true, none, true, none, 200, "OK", [], [], []⟩

/-- A transport that yields `connW`. -/
def trW : Transport := ⟨some connW, none⟩

/-- A GET request bound to `trW`. -/
def rqW : Request := Request.make "http://host/path" "GET" (some trW) trW

/-- The request after its response has been received: the transport (and the
connection, moved into the Response) are cleared. -/
def rqWdone : Request := { rqW with transport := none }

end Http
end Chromeos

namespace Brillo

theorem taskLE_refl (a : DelayedTask) : taskLE a a :=
  Or.inr ⟨rfl, Nat.le_refl _⟩

theorem taskLE_trans {a b c : DelayedTask} (h1 : taskLE a b) (h2 : taskLE b c) :
    taskLE a c := by
  rcases h1 with h1 | ⟨e1, l1⟩ <;> rcases h2 with h2 | ⟨e2, l2⟩
  · exact Or.inl (h1.trans h2)
  · exact Or.inl (e2 ▸ h1)
  · exact Or.inl (e1 ▸ h2)
  · exact Or.inr ⟨e1.trans e2, l1.trans l2⟩

theorem taskLE_total (a b : DelayedTask) : taskLE a b ∨ taskLE b a := by
  rcases Nat.lt_trichotomy a.deadline b.deadline with h | h | h
  · exact Or.inl (Or.inl h)
  · rcases Nat.le_total a.task_id b.task_id with h' | h'
    · exact Or.inl (Or.inr ⟨h, h'⟩)
    · exact Or.inr (Or.inr ⟨h.symm, h'⟩)
  · exact Or.inr (Or.inl h)

namespace Reactor

theorem minTaskAux_mem : ∀ (l : List DelayedTask) (t : DelayedTask),
    minTaskAux t l ∈ t :: l
  | [], t => by simp [minTaskAux]
  | u :: us, t => by
    simp only [minTaskAux, List.foldl_cons]
    by_cases h : taskLE t u
    · rw [if_pos h]
      have h' := minTaskAux_mem us t
      simp only [minTaskAux, List.mem_cons] at h'
      rcases h' with h' | h' <;> simp [h']
    · rw [if_neg h]
      have h' := minTaskAux_mem us u
      simp only [minTaskAux, List.mem_cons] at h'
      rcases h' with h' | h' <;> simp [h']

theorem minTaskAux_le : ∀ (l : List DelayedTask) (t u : DelayedTask),
    u ∈ t :: l → taskLE (minTaskAux t l) u
  | [], t, u, hu => by
    simp at hu
    subst hu
    simpa [minTaskAux] using taskLE_refl _
  | v :: vs, t, u, hu => by
    simp only [minTaskAux, List.foldl_cons]
    by_cases h : taskLE t v
    · rw [if_pos h]
      rcases List.mem_cons.mp hu with rfl | hu'
      · exact minTaskAux_le vs _ _ (List.mem_cons_self _ _)
      · rcases List.mem_cons.mp hu' with rfl | hu''
        · exact taskLE_trans (minTaskAux_le vs t t (List.mem_cons_self _ _)) h
        · exact minTaskAux_le vs t u (List.mem_cons_of_mem _ hu'')
    · rw [if_neg h]
      have hvt : taskLE v t := (taskLE_total t v).resolve_left h
      rcases List.mem_cons.mp hu with rfl | hu'
      · exact taskLE_trans (minTaskAux_le vs v v (List.mem_cons_self _ _)) hvt
      · rcases List.mem_cons.mp hu' with rfl | hu''
        · exact minTaskAux_le vs _ _ (List.mem_cons_self _ _)
        · exact minTaskAux_le vs v u (List.mem_cons_of_mem _ hu'')

theorem nextDue_mem {st : Reactor} {t : DelayedTask} (h : st.nextDue = some t) :
    t ∈ st.delayed_tasks := by
  unfold nextDue at h
  cases hl : st.delayed_tasks with
  | nil => rw [hl] at h; simp at h
  | cons a l =>
      rw [hl] at h
      simp only [Option.some.injEq] at h
      rw [← h]
      exact minTaskAux_mem l a

theorem nextDue_le {st : Reactor} {t : DelayedTask} (h : st.nextDue = some t) :
    ∀ u ∈ st.delayed_tasks, taskLE t u := by
  unfold nextDue at h
  cases hl : st.delayed_tasks with
  | nil => rw [hl] at h; simp at h
  | cons a l =>
      rw [hl] at h
      simp only [Option.some.injEq] at h
      intro u hu
      rw [← h]
      exact minTaskAux_le l a u hu

theorem nextDue_eq_none {st : Reactor} : st.nextDue = none ↔ st.delayed_tasks = [] := by
  unfold nextDue
  cases st.delayed_tasks <;> simp

end Reactor

end Brillo

namespace Brillo

namespace Reactor

theorem findDelayed_eq_none_iff {st : Reactor} {id : TaskId} :
    st.findDelayed id = none ↔ ∀ t ∈ st.delayed_tasks, t.task_id ≠ id := by
  unfold findDelayed
  rw [List.find?_eq_none]
  simp

theorem findIOTask_eq_none_iff {st : Reactor} {id : TaskId} :
    st.findIOTask id = none ↔ ∀ t ∈ st.io_tasks, t.task_id ≠ id := by
  unfold findIOTask
  rw [List.find?_eq_none]
  simp

theorem findDelayed_some_facts {st : Reactor} {id : TaskId} {t : DelayedTask}
    (h : st.findDelayed id = some t) : t ∈ st.delayed_tasks ∧ t.task_id = id :=
  ⟨List.mem_of_find?_eq_some h, by simpa using List.find?_some h⟩

theorem findIOTask_some_facts {st : Reactor} {id : TaskId} {t : IOTask}
    (h : st.findIOTask id = some t) : t ∈ st.io_tasks ∧ t.task_id = id :=
  ⟨List.mem_of_find?_eq_some h, by simpa using List.find?_some h⟩


theorem succ_ne_of_le {a b : Nat} (h : b ≤ a) : a + 1 ≠ b := by omega

theorem retired_of_subsets {st st' : Reactor} {id : TaskId} (h : retired st id)
    (hd : ∀ t ∈ st'.delayed_tasks, t ∈ st.delayed_tasks)
    (hio : ∀ t ∈ st'.io_tasks, t ∈ st.io_tasks)
    (hlast : st.last_id ≤ st'.last_id) : retired st' id :=
  ⟨fun t ht => h.1 t (hd t ht),
   fun t ht => h.2.1 t (hio t ht),
   h.2.2.trans hlast⟩

theorem retired_map_io {st : Reactor} {id : TaskId} (h : retired st id)
    (f : IOTask → IOTask)
    (hf : ∀ u, (f u).task_id = u.task_id)
    (hdrain : ∀ u ∈ st.io_tasks, u.task_id = id →
        (f u).dispatch_state = .canceledPendingDrain) :
    retired { st with io_tasks := st.io_tasks.map f } id := by
  refine ⟨h.1, ?_, h.2.2⟩
  intro t ht hid
  rcases List.mem_map.mp ht with ⟨u, hu, rfl⟩
  exact hdrain u hu (by rw [← hf u]; exact hid)

end Reactor

end Brillo


namespace Brillo

namespace Reactor

theorem cancelTask_eq_of_delayed {st : Reactor} {id : TaskId} {t : DelayedTask}
    (h : st.findDelayed id = some t) :
    st.CancelTask id = (true, { st with delayed_tasks := st.eraseDelayed id }) := by
  unfold CancelTask
  simp [h]

theorem cancelTask_eq_of_none {st : Reactor} {id : TaskId}
    (hd : st.findDelayed id = none) (hio : st.findIOTask id = none) :
    st.CancelTask id = (false, st) := by
  unfold CancelTask
  simp [hd, hio]

theorem cancelTask_eq_of_io_idle {st : Reactor} {id : TaskId} {t : IOTask}
    (hd : st.findDelayed id = none) (hio : st.findIOTask id = some t)
    (hs : t.dispatch_state = .idle) :
    st.CancelTask id = (true, { st with io_tasks := st.eraseIOTask id }) := by
  unfold CancelTask
  simp [hd, hio, hs]

theorem cancelTask_eq_of_io_pending {st : Reactor} {id : TaskId} {t : IOTask}
    (hd : st.findDelayed id = none) (hio : st.findIOTask id = some t)
    (hs : t.dispatch_state = .pendingDispatch) :
    st.CancelTask id = (true, { st with io_tasks := st.io_tasks.map (fun u =>
      if u.task_id == id then
        { u with watching := false, dispatch_state := .canceledPendingDrain }
      else u) }) := by
  unfold CancelTask
  simp [hd, hio, hs]

theorem cancelTask_eq_of_io_drain {st : Reactor} {id : TaskId} {t : IOTask}
    (hd : st.findDelayed id = none) (hio : st.findIOTask id = some t)
    (hs : t.dispatch_state = .canceledPendingDrain) :
    st.CancelTask id = (false, st) := by
  unfold CancelTask
  simp [hd, hio, hs]

theorem onRanPostedTask_eq_of_some {st : Reactor} {id : TaskId} {t : DelayedTask}
    (h : st.findDelayed id = some t) :
    st.OnRanPostedTask id =
      ({ st with delayed_tasks := st.eraseDelayed id }, some t) := by
  unfold OnRanPostedTask
  simp [h]

theorem onRanPostedTask_eq_of_none {st : Reactor} {id : TaskId}
    (h : st.findDelayed id = none) : st.OnRanPostedTask id = (st, none) := by
  unfold OnRanPostedTask
  simp [h]

theorem onFileReady_eq_of_none {st : Reactor} {id : TaskId}
    (h : st.findIOTask id = none) : st.OnFileReady id = st := by
  unfold OnFileReady
  simp [h]

theorem onFileReady_eq_of_armed {st : Reactor} {id : TaskId} {t : IOTask}
    (h : st.findIOTask id = some t) (hw : t.watching = true)
    (hs : t.dispatch_state = .idle) :
    st.OnFileReady id = { st with io_tasks := st.io_tasks.map (fun u =>
      if u.task_id == id then
        { u with watching := false, dispatch_state := .pendingDispatch }
      else u) } := by
  unfold OnFileReady
  simp [h, hw, hs]

theorem onFileReady_eq_of_unarmed {st : Reactor} {id : TaskId} {t : IOTask}
    (h : st.findIOTask id = some t)
    (hg : (t.watching && t.dispatch_state == IOTaskState.idle) = false) :
    st.OnFileReady id = st := by
  unfold OnFileReady
  simp only [h, hg]
  rfl

theorem onFileReadyPostedTask_eq_of_none {st : Reactor} {id : TaskId}
    (h : st.findIOTask id = none) : st.OnFileReadyPostedTask id = (st, none) := by
  unfold OnFileReadyPostedTask
  simp [h]

theorem onFileReadyPostedTask_eq_of_idle {st : Reactor} {id : TaskId} {t : IOTask}
    (h : st.findIOTask id = some t) (hs : t.dispatch_state = .idle) :
    st.OnFileReadyPostedTask id = (st, none) := by
  unfold OnFileReadyPostedTask
  simp [h, hs]

theorem onFileReadyPostedTask_eq_of_drain {st : Reactor} {id : TaskId} {t : IOTask}
    (h : st.findIOTask id = some t) (hs : t.dispatch_state = .canceledPendingDrain) :
    st.OnFileReadyPostedTask id =
      ({ st with io_tasks := st.eraseIOTask id }, none) := by
  unfold OnFileReadyPostedTask
  simp [h, hs]

theorem onFileReadyPostedTask_eq_of_persistent {st : Reactor} {id : TaskId} {t : IOTask}
    (h : st.findIOTask id = some t) (hs : t.dispatch_state = .pendingDispatch)
    (hp : t.persistent = true) :
    st.OnFileReadyPostedTask id =
      ({ st with io_tasks := st.io_tasks.map (fun u =>
          if u.task_id == id then
            { u with watching := true, dispatch_state := .idle }
          else u) }, some (id, t.closure)) := by
  unfold OnFileReadyPostedTask
  simp [h, hs, hp]

theorem onFileReadyPostedTask_eq_of_oneshot {st : Reactor} {id : TaskId} {t : IOTask}
    (h : st.findIOTask id = some t) (hs : t.dispatch_state = .pendingDispatch)
    (hp : t.persistent = false) :
    st.OnFileReadyPostedTask id =
      ({ st with io_tasks := st.eraseIOTask id }, some (id, t.closure)) := by
  unfold OnFileReadyPostedTask
  simp [h, hs, hp]

theorem postDelayedTask_eq (st : Reactor) (location closure delay : Nat) :
    st.PostDelayedTask location closure delay =
      (st.last_id + 1,
       { st with last_id := st.last_id + 1
                 delayed_tasks :=
                   ⟨location, st.last_id + 1, st.clock + delay, closure⟩ ::
                     st.delayed_tasks }) := by
  unfold PostDelayedTask NextTaskId
  rfl

theorem watchFileDescriptor_eq_armed (st : Reactor) (location : Nat) (fd : Int)
    (mode : WatchMode) (persistent : Bool) (closure : Nat) :
    st.WatchFileDescriptor location fd mode persistent closure true =
      (st.last_id + 1,
       { st with last_id := st.last_id + 1
                 io_tasks :=
                   ⟨location, st.last_id + 1, fd, mode, persistent, closure, true, .idle⟩ ::
                     st.io_tasks }) := by
  unfold WatchFileDescriptor NextTaskId
  rfl

theorem watchFileDescriptor_eq_failed (st : Reactor) (location : Nat) (fd : Int)
    (mode : WatchMode) (persistent : Bool) (closure : Nat) :
    st.WatchFileDescriptor location fd mode persistent closure false =
      (kTaskIdNull, st) := by
  unfold WatchFileDescriptor
  rfl

end Reactor

end Brillo

namespace Brillo

namespace Reactor

theorem retired_postDelayed {st : Reactor} {id : TaskId} (h : retired st id)
    (location closure delay : Nat) :
    retired (st.PostDelayedTask location closure delay).2 id := by
  rw [postDelayedTask_eq]
  obtain ⟨hd, hio, hle⟩ := h
  refine ⟨?_, hio, hle.trans (Nat.le_succ _)⟩
  intro t ht
  rcases List.mem_cons.mp ht with rfl | ht'
  · exact succ_ne_of_le hle
  · exact hd t ht'

theorem retired_watchFd {st : Reactor} {id : TaskId} (h : retired st id)
    (location : Nat) (fd : Int) (mode : WatchMode) (persistent : Bool)
    (closure : Nat) (armOk : Bool) :
    retired (st.WatchFileDescriptor location fd mode persistent closure armOk).2 id := by
  obtain ⟨hd, hio, hle⟩ := h
  cases armOk with
  | false => rw [watchFileDescriptor_eq_failed]; exact ⟨hd, hio, hle⟩
  | true =>
      rw [watchFileDescriptor_eq_armed]
      refine ⟨hd, ?_, hle.trans (Nat.le_succ _)⟩
      intro t ht hid
      rcases List.mem_cons.mp ht with rfl | ht'
      · exact absurd (show st.last_id + 1 = id from hid) (succ_ne_of_le hle)
      · exact hio t ht' hid

theorem retired_cancel {st : Reactor} {id : TaskId} (h : retired st id)
    (id' : TaskId) : retired (st.CancelTask id').2 id := by
  cases hfd : st.findDelayed id' with
  | some t =>
      rw [cancelTask_eq_of_delayed hfd]
      show retired { st with delayed_tasks := st.eraseDelayed id' } id
      exact retired_of_subsets h
        (fun u hu => (List.mem_filter.mp hu).1) (fun u hu => hu) (Nat.le_refl _)
  | none =>
      cases hfio : st.findIOTask id' with
      | none => rw [cancelTask_eq_of_none hfd hfio]; exact h
      | some t =>
          cases hds : t.dispatch_state with
          | idle =>
              rw [cancelTask_eq_of_io_idle hfd hfio hds]
              show retired { st with io_tasks := st.eraseIOTask id' } id
              exact retired_of_subsets h
                (fun u hu => hu) (fun u hu => (List.mem_filter.mp hu).1) (Nat.le_refl _)
          | pendingDispatch =>
              rw [cancelTask_eq_of_io_pending hfd hfio hds]
              show retired { st with io_tasks := st.io_tasks.map _ } id
              refine retired_map_io h _ ?_ ?_
              · intro u
                by_cases hm : u.task_id == id' <;> simp [hm]
              · intro u hu hid
                by_cases hm : u.task_id == id'
                · simp [hm]
                · simp only [hm, Bool.false_eq_true, if_neg, not_false_iff]
                  exact h.2.1 u hu hid
          | canceledPendingDrain =>
              rw [cancelTask_eq_of_io_drain hfd hfio hds]; exact h

theorem retired_onRanPostedTask {st : Reactor} {id : TaskId} (h : retired st id)
    (id' : TaskId) : retired (st.OnRanPostedTask id').1 id := by
  cases hfd : st.findDelayed id' with
  | some t =>
      rw [onRanPostedTask_eq_of_some hfd]
      show retired { st with delayed_tasks := st.eraseDelayed id' } id
      exact retired_of_subsets h
        (fun u hu => (List.mem_filter.mp hu).1) (fun u hu => hu) (Nat.le_refl _)
  | none => rw [onRanPostedTask_eq_of_none hfd]; exact h

theorem retired_onFileReady {st : Reactor} {id : TaskId} (h : retired st id)
    (id' : TaskId) : retired (st.OnFileReady id') id := by
  cases hfio : st.findIOTask id' with
  | none => rw [onFileReady_eq_of_none hfio]; exact h
  | some t =>
      by_cases hg : (t.watching && t.dispatch_state == IOTaskState.idle) = true
      · have hg' := hg
        simp only [Bool.and_eq_true, beq_iff_eq] at hg'
        have hw : t.watching = true := hg'.1
        have hs : t.dispatch_state = .idle := hg'.2
        by_cases hid' : id' = id
        · exfalso
          obtain ⟨ht, htid⟩ := findIOTask_some_facts hfio
          have := h.2.1 t ht (hid' ▸ htid)
          rw [this] at hs
          cases hs
        · rw [onFileReady_eq_of_armed hfio hw hs]
          refine retired_map_io h _ ?_ ?_
          · intro u
            by_cases hm : u.task_id == id' <;> simp [hm]
          · intro u hu hid
            have hm : (u.task_id == id') = false := by
              simp only [beq_eq_false_iff_ne, ne_eq]
              rw [hid]
              exact fun hc => hid' hc.symm
            simp only [hm, Bool.false_eq_true, if_neg, not_false_iff]
            exact h.2.1 u hu hid
      · rw [onFileReady_eq_of_unarmed hfio (Bool.not_eq_true _ ▸ hg)]
        exact h

theorem retired_onFileReadyPostedTask {st : Reactor} {id : TaskId} (h : retired st id)
    (id' : TaskId) : retired (st.OnFileReadyPostedTask id').1 id := by
  cases hfio : st.findIOTask id' with
  | none => rw [onFileReadyPostedTask_eq_of_none hfio]; exact h
  | some t =>
      cases hds : t.dispatch_state with
      | idle => rw [onFileReadyPostedTask_eq_of_idle hfio hds]; exact h
      | canceledPendingDrain =>
          rw [onFileReadyPostedTask_eq_of_drain hfio hds]
          show retired { st with io_tasks := st.eraseIOTask id' } id
          exact retired_of_subsets h
            (fun u hu => hu) (fun u hu => (List.mem_filter.mp hu).1) (Nat.le_refl _)
      | pendingDispatch =>
          by_cases hid' : id' = id
          · exfalso
            obtain ⟨ht, htid⟩ := findIOTask_some_facts hfio
            have := h.2.1 t ht (hid' ▸ htid)
            rw [this] at hds
            cases hds
          · cases hp : t.persistent with
            | true =>
                rw [onFileReadyPostedTask_eq_of_persistent hfio hds hp]
                show retired { st with io_tasks := st.io_tasks.map _ } id
                refine retired_map_io h _ ?_ ?_
                · intro u
                  by_cases hm : u.task_id == id' <;> simp [hm]
                · intro u hu hid
                  have hm : (u.task_id == id') = false := by
                    simp only [beq_eq_false_iff_ne, ne_eq]
                    rw [hid]
                    exact fun hc => hid' hc.symm
                  simp only [hm, Bool.false_eq_true, if_neg, not_false_iff]
                  exact h.2.1 u hu hid
            | false =>
                rw [onFileReadyPostedTask_eq_of_oneshot hfio hds hp]
                show retired { st with io_tasks := st.eraseIOTask id' } id
                exact retired_of_subsets h
                  (fun u hu => hu) (fun u hu => (List.mem_filter.mp hu).1) (Nat.le_refl _)

theorem retired_step {st : Reactor} {id : TaskId} (h : retired st id) (e : Event) :
    retired (st.step e).1 id := by
  cases e with
  | postDelayed location closure delay => exact retired_postDelayed h location closure delay
  | watchFd location fd mode persistent closure armOk =>
      exact retired_watchFd h location fd mode persistent closure armOk
  | cancel id' => exact retired_cancel h id'
  | timerFire id' =>
      show retired (st.OnRanPostedTask id').1 id
      exact retired_onRanPostedTask h id'
  | fdReady id' => exact retired_onFileReady h id'
  | runPostedDispatch id' => exact retired_onFileReadyPostedTask h id'
  | breakLoop => exact h
  | tick => exact h

end Reactor

end Brillo

namespace Brillo

namespace Reactor

theorem step_invoke_not_retired {st : Reactor} {id : TaskId} (h : retired st id)
    (e : Event) {j : TaskId} {c : Nat} (hj : (st.step e).2 = some (j, c)) : j ≠ id := by
  cases e with
  | postDelayed location closure delay => simp [step] at hj
  | watchFd location fd mode persistent closure armOk => simp [step] at hj
  | cancel id' => simp [step] at hj
  | breakLoop => simp [step] at hj
  | tick => simp [step] at hj
  | fdReady id' => simp [step] at hj
  | timerFire id' =>
      have hj' : ((st.OnRanPostedTask id').2.map
          (fun t => (t.task_id, t.closure))) = some (j, c) := hj
      cases hfd : st.findDelayed id' with
      | none => rw [onRanPostedTask_eq_of_none hfd] at hj'; simp at hj'
      | some t =>
          rw [onRanPostedTask_eq_of_some hfd] at hj'
          simp only [Option.map_some', Option.some.injEq, Prod.mk.injEq] at hj'
          obtain ⟨ht, _⟩ := findDelayed_some_facts hfd
          rw [← hj'.1]
          exact h.1 t ht
  | runPostedDispatch id' =>
      have hj' : (st.OnFileReadyPostedTask id').2 = some (j, c) := hj
      cases hfio : st.findIOTask id' with
      | none => rw [onFileReadyPostedTask_eq_of_none hfio] at hj'; simp at hj'
      | some t =>
          cases hds : t.dispatch_state with
          | canceledPendingDrain =>
              rw [onFileReadyPostedTask_eq_of_drain hfio hds] at hj'; simp at hj'
          | idle =>
              rw [onFileReadyPostedTask_eq_of_idle hfio hds] at hj'; simp at hj'
          | pendingDispatch =>
              obtain ⟨ht, htid⟩ := findIOTask_some_facts hfio
              have hj2 : j = id' := by
                cases hp : t.persistent with
                | true =>
                    rw [onFileReadyPostedTask_eq_of_persistent hfio hds hp] at hj'
                    simp only [Option.some.injEq, Prod.mk.injEq] at hj'
                    exact hj'.1.symm
                | false =>
                    rw [onFileReadyPostedTask_eq_of_oneshot hfio hds hp] at hj'
                    simp only [Option.some.injEq, Prod.mk.injEq] at hj'
                    exact hj'.1.symm
              intro hc
              have hdr := h.2.1 t ht (by rw [htid, ← hj2, hc])
              rw [hdr] at hds
              cases hds

theorem runEvents_retired_no_invoke {id : TaskId} :
    ∀ (evs : List Event) (st : Reactor), retired st id →
      ∀ (c : Nat), (id, c) ∉ (st.runEvents evs).2 := by
  intro evs
  induction evs with
  | nil => intro st _ c; simp [runEvents]
  | cons e es ih =>
      intro st h c
      simp only [runEvents, List.mem_append, not_or]
      refine ⟨?_, ih (st.step e).1 (retired_step h e) c⟩
      cases hstep : (st.step e).2 with
      | none => simp
      | some p =>
          rcases p with ⟨j, cl⟩
          simp only [Option.toList_some, List.mem_singleton]
          intro hc
          rw [Prod.mk.injEq] at hc
          exact step_invoke_not_retired h e hstep (hc.1.symm ▸ rfl)

theorem cancelTask_true_retired {st : Reactor} {id : TaskId} (hwf : st.WF)
    (hc : (st.CancelTask id).1 = true) : retired (st.CancelTask id).2 id := by
  obtain ⟨hwd, hwio, _, _, hdisj⟩ := hwf
  cases hfd : st.findDelayed id with
  | some t =>
      obtain ⟨ht, htid⟩ := findDelayed_some_facts hfd
      rw [cancelTask_eq_of_delayed hfd]
      refine ⟨?_, ?_, htid ▸ (hwd t ht).2⟩
      · intro u hu
        have := (List.mem_filter.mp hu).2
        simpa using this
      · intro u hu hid
        exact absurd (htid.trans hid.symm) (hdisj t ht u hu)
  | none =>
      cases hfio : st.findIOTask id with
      | none =>
          rw [cancelTask_eq_of_none hfd hfio] at hc
          cases hc
      | some t =>
          obtain ⟨ht, htid⟩ := findIOTask_some_facts hfio
          cases hds : t.dispatch_state with
          | idle =>
              rw [cancelTask_eq_of_io_idle hfd hfio hds]
              refine ⟨findDelayed_eq_none_iff.mp hfd, ?_, htid ▸ (hwio t ht).2⟩
              intro u hu hid
              have := (List.mem_filter.mp hu).2
              rw [hid] at this
              simp at this
          | pendingDispatch =>
              rw [cancelTask_eq_of_io_pending hfd hfio hds]
              refine ⟨findDelayed_eq_none_iff.mp hfd, ?_, htid ▸ (hwio t ht).2⟩
              intro u hu hid
              rcases List.mem_map.mp hu with ⟨v, hv, rfl⟩
              by_cases hm : v.task_id == id
              · simp [hm]
              · simp only [hm, Bool.false_eq_true, if_neg, not_false_iff] at hid ⊢
                exact absurd (by simpa using hid) (by simpa using hm)
          | canceledPendingDrain =>
              rw [cancelTask_eq_of_io_drain hfd hfio hds] at hc
              cases hc

end Reactor

end Brillo

namespace Brillo

theorem find?_beq_key_eq_self {α : Type} (key : α → Nat) {l : List α}
    (hnd : (l.map key).Nodup) {t : α} (ht : t ∈ l) :
    l.find? (fun u => key u == key t) = some t := by
  induction l with
  | nil => cases ht
  | cons a as ih =>
      simp only [List.map_cons, List.nodup_cons] at hnd
      rcases List.mem_cons.mp ht with rfl | ht'
      · exact List.find?_cons_of_pos _ (by simp)
      · have hne : ¬((key a == key t) = true) := by
          simp only [beq_iff_eq]
          intro hc
          exact hnd.1 (by rw [hc]; exact List.mem_map_of_mem _ ht')
        rw [show List.find? (fun u => key u == key t) (a :: as) =
              List.find? (fun u => key u == key t) as from
            List.find?_cons_of_neg _ hne]
        exact ih hnd.2 ht'

theorem mem_key_unique {α : Type} (key : α → Nat) {l : List α}
    (hnd : (l.map key).Nodup) {t u : α} (ht : t ∈ l) (hu : u ∈ l)
    (hk : key t = key u) : t = u := by
  have h1 := find?_beq_key_eq_self key hnd ht
  have h2 := find?_beq_key_eq_self key hnd hu
  rw [hk] at h1
  rw [h1] at h2
  exact Option.some.inj h2

theorem perm_cons_erase_key {α : Type} (key : α → Nat) :
    ∀ {l : List α}, (l.map key).Nodup → ∀ {t : α}, t ∈ l →
      l.Perm (t :: l.filter (fun u => !(key u == key t)))
  | [], _, t, ht => by cases ht
  | a :: as, hnd, t, ht => by
      simp only [List.map_cons, List.nodup_cons] at hnd
      rcases List.mem_cons.mp ht with rfl | ht'
      · have hfa : List.filter (fun u => !(key u == key t)) (t :: as) = as := by
          rw [List.filter_cons]
          simp only [beq_self_eq_true, Bool.not_true, Bool.false_eq_true, if_false]
          rw [List.filter_eq_self]
          intro u hu
          simp only [Bool.not_eq_eq_eq_not, Bool.not_true, beq_eq_false_iff_ne, ne_eq]
          intro hc
          exact hnd.1 (by rw [← hc]; exact List.mem_map_of_mem _ hu)
        rw [hfa]
      · have hka : ¬(key a = key t) := by
          intro hc
          exact hnd.1 (by rw [hc]; exact List.mem_map_of_mem _ ht')
        have hfa : List.filter (fun u => !(key u == key t)) (a :: as) =
            a :: List.filter (fun u => !(key u == key t)) as := by
          rw [List.filter_cons]
          simp [hka]
        rw [hfa]
        have ih := perm_cons_erase_key key hnd.2 ht'
        exact List.Perm.trans (ih.cons a) (List.Perm.swap t a _)

end Brillo

namespace Brillo

namespace Reactor

theorem findDelayed_of_mem {st : Reactor}
    (hnd : (st.delayed_tasks.map (fun t => t.task_id)).Nodup)
    {t : DelayedTask} (ht : t ∈ st.delayed_tasks) :
    st.findDelayed t.task_id = some t :=
  find?_beq_key_eq_self (fun u : DelayedTask => u.task_id) hnd ht

theorem findIOTask_of_mem {st : Reactor}
    (hnd : (st.io_tasks.map (fun t => t.task_id)).Nodup)
    {t : IOTask} (ht : t ∈ st.io_tasks) :
    st.findIOTask t.task_id = some t :=
  find?_beq_key_eq_self (fun u : IOTask => u.task_id) hnd ht

theorem WF_eraseDelayed {st : Reactor} (h : st.WF) (id : TaskId) :
    WF { st with delayed_tasks := st.eraseDelayed id } := by
  obtain ⟨hd, hio, hnd, hnio, hdisj⟩ := h
  refine ⟨?_, hio, ?_, hnio, ?_⟩
  · intro t ht
    exact hd t (List.mem_filter.mp ht).1
  · exact List.Nodup.sublist (List.Sublist.map _ (List.filter_sublist _)) hnd
  · intro t ht u hu
    exact hdisj t (List.mem_filter.mp ht).1 u hu

theorem WF_eraseIOTask {st : Reactor} (h : st.WF) (id : TaskId) :
    WF { st with io_tasks := st.eraseIOTask id } := by
  obtain ⟨hd, hio, hnd, hnio, hdisj⟩ := h
  refine ⟨hd, ?_, hnd, ?_, ?_⟩
  · intro t ht
    exact hio t (List.mem_filter.mp ht).1
  · exact List.Nodup.sublist (List.Sublist.map _ (List.filter_sublist _)) hnio
  · intro t ht u hu
    exact hdisj t ht u (List.mem_filter.mp hu).1

theorem WF_map_io {st : Reactor} (h : st.WF) (f : IOTask → IOTask)
    (hf : ∀ u, (f u).task_id = u.task_id) :
    WF { st with io_tasks := st.io_tasks.map f } := by
  obtain ⟨hd, hio, hnd, hnio, hdisj⟩ := h
  have hkeys : (st.io_tasks.map f).map (fun t => t.task_id) =
      st.io_tasks.map (fun t => t.task_id) := by
    rw [List.map_map]
    exact List.map_congr_left (fun u _ => hf u)
  refine ⟨hd, ?_, hnd, ?_, ?_⟩
  · intro t ht
    rcases List.mem_map.mp ht with ⟨u, hu, rfl⟩
    rw [hf u]
    exact hio u hu
  · rw [hkeys]; exact hnio
  · intro t ht u hu
    rcases List.mem_map.mp hu with ⟨v, hv, rfl⟩
    rw [hf v]
    exact hdisj t ht v hv

theorem eraseDelayed_length_lt {st : Reactor} {t : DelayedTask}
    (ht : t ∈ st.delayed_tasks) :
    (st.eraseDelayed t.task_id).length < st.delayed_tasks.length := by
  unfold eraseDelayed
  rw [List.length_filter_lt_length_iff_exists]
  exact ⟨t, ht, by simp⟩

/-- The delayed-task pump fires every outstanding delayed task exactly once, in
the wait primitive's order: the emitted sequence is pairwise ordered by
`taskLE` (earlier deadline first, ties by lower id), is a permutation of the
registry, and leaves the registry empty. -/
theorem runDelayedFuel_sorted_perm :
    ∀ (n : Nat) (st : Reactor), st.WF → st.delayed_tasks.length ≤ n →
      (st.runDelayedFuel n).1.Pairwise taskLE ∧
      (st.runDelayedFuel n).1.Perm st.delayed_tasks ∧
      (st.runDelayedFuel n).2.delayed_tasks = [] := by
  intro n
  induction n with
  | zero =>
      intro st _ hlen
      have : st.delayed_tasks = [] := List.eq_nil_of_length_eq_zero (Nat.le_zero.mp hlen)
      refine ⟨by simp [runDelayedFuel], by simp [runDelayedFuel, this], ?_⟩
      simp [runDelayedFuel, this]
  | succ n ih =>
      intro st hwf hlen
      cases hnd : st.nextDue with
      | none =>
          have hnil : st.delayed_tasks = [] := nextDue_eq_none.mp hnd
          refine ⟨?_, ?_, ?_⟩ <;> simp [runDelayedFuel, hnd, hnil]
      | some t =>
          have ht : t ∈ st.delayed_tasks := nextDue_mem hnd
          have hfd : st.findDelayed t.task_id = some t :=
            findDelayed_of_mem hwf.2.2.1 ht
          have heq := onRanPostedTask_eq_of_some hfd
          have hwf' : WF { st with delayed_tasks := st.eraseDelayed t.task_id } :=
            WF_eraseDelayed hwf t.task_id
          have hlen' : (st.eraseDelayed t.task_id).length ≤ n :=
            Nat.lt_succ_iff.mp (Nat.lt_of_lt_of_le (eraseDelayed_length_lt ht) hlen)
          have ihr := ih { st with delayed_tasks := st.eraseDelayed t.task_id } hwf' hlen'
          have hperm : st.delayed_tasks.Perm (t :: st.eraseDelayed t.task_id) :=
            perm_cons_erase_key (fun u : DelayedTask => u.task_id) hwf.2.2.1 ht
          have hstep : st.runDelayedFuel (n + 1) =
              (t :: (runDelayedFuel { st with delayed_tasks := st.eraseDelayed t.task_id } n).1,
               (runDelayedFuel { st with delayed_tasks := st.eraseDelayed t.task_id } n).2) := by
            simp only [runDelayedFuel, hnd, heq, Option.toList_some, List.singleton_append]
          rw [hstep]
          refine ⟨?_, ?_, ihr.2.2⟩
          · rw [List.pairwise_cons]
            refine ⟨?_, ihr.1⟩
            intro u hu
            have hu1 : u ∈ st.eraseDelayed t.task_id := (ihr.2.1.mem_iff).mp hu
            have hu2 : u ∈ st.delayed_tasks := (List.filter_sublist _).subset hu1
            exact nextDue_le hnd u hu2
          · exact (ihr.2.1.cons t).trans hperm.symm

end Reactor

end Brillo

namespace Brillo

namespace Reactor

theorem WF_postDelayed {st : Reactor} (h : st.WF) (location closure delay : Nat) :
    WF (st.PostDelayedTask location closure delay).2 := by
  rw [postDelayedTask_eq]
  obtain ⟨hd, hio, hnd, hnio, hdisj⟩ := h
  refine ⟨?_, ?_, ?_, hnio, ?_⟩
  · intro t ht
    rcases List.mem_cons.mp ht with rfl | ht'
    · exact ⟨Nat.succ_ne_zero _, Nat.le_refl _⟩
    · exact ⟨(hd t ht').1, (hd t ht').2.trans (Nat.le_succ _)⟩
  · intro t ht
    exact ⟨(hio t ht).1, (hio t ht).2.trans (Nat.le_succ _)⟩
  · rw [List.map_cons, List.nodup_cons]
    refine ⟨?_, hnd⟩
    intro hc
    rcases List.mem_map.mp hc with ⟨u, hu, heq⟩
    exact succ_ne_of_le (hd u hu).2 heq.symm
  · intro t ht u hu
    rcases List.mem_cons.mp ht with rfl | ht'
    · exact fun hc => succ_ne_of_le (hio u hu).2 hc
    · exact hdisj t ht' u hu

theorem WF_watchFd {st : Reactor} (h : st.WF) (location : Nat) (fd : Int)
    (mode : WatchMode) (persistent : Bool) (closure : Nat) (armOk : Bool) :
    WF (st.WatchFileDescriptor location fd mode persistent closure armOk).2 := by
  cases armOk with
  | false => rw [watchFileDescriptor_eq_failed]; exact h
  | true =>
      rw [watchFileDescriptor_eq_armed]
      obtain ⟨hd, hio, hnd, hnio, hdisj⟩ := h
      refine ⟨?_, ?_, hnd, ?_, ?_⟩
      · intro t ht
        exact ⟨(hd t ht).1, (hd t ht).2.trans (Nat.le_succ _)⟩
      · intro t ht
        rcases List.mem_cons.mp ht with rfl | ht'
        · exact ⟨Nat.succ_ne_zero _, Nat.le_refl _⟩
        · exact ⟨(hio t ht').1, (hio t ht').2.trans (Nat.le_succ _)⟩
      · rw [List.map_cons, List.nodup_cons]
        refine ⟨?_, hnio⟩
        intro hc
        rcases List.mem_map.mp hc with ⟨u, hu, hequ⟩
        exact succ_ne_of_le (hio u hu).2 hequ.symm
      · intro t ht u hu
        rcases List.mem_cons.mp hu with rfl | hu'
        · exact fun hc => succ_ne_of_le (hd t ht).2 hc.symm
        · exact hdisj t ht u hu'

theorem WF_cancel {st : Reactor} (h : st.WF) (id : TaskId) :
    WF (st.CancelTask id).2 := by
  cases hfd : st.findDelayed id with
  | some t =>
      rw [cancelTask_eq_of_delayed hfd]
      exact WF_eraseDelayed h id
  | none =>
      cases hfio : st.findIOTask id with
      | none => rw [cancelTask_eq_of_none hfd hfio]; exact h
      | some t =>
          cases hds : t.dispatch_state with
          | idle => rw [cancelTask_eq_of_io_idle hfd hfio hds]; exact WF_eraseIOTask h id
          | pendingDispatch =>
              rw [cancelTask_eq_of_io_pending hfd hfio hds]
              refine WF_map_io h _ ?_
              intro u
              by_cases hm : u.task_id == id <;> simp [hm]
          | canceledPendingDrain =>
              rw [cancelTask_eq_of_io_drain hfd hfio hds]; exact h

theorem WF_onRanPostedTask {st : Reactor} (h : st.WF) (id : TaskId) :
    WF (st.OnRanPostedTask id).1 := by
  cases hfd : st.findDelayed id with
  | some t => rw [onRanPostedTask_eq_of_some hfd]; exact WF_eraseDelayed h id
  | none => rw [onRanPostedTask_eq_of_none hfd]; exact h

theorem WF_onFileReady {st : Reactor} (h : st.WF) (id : TaskId) :
    WF (st.OnFileReady id) := by
  cases hfio : st.findIOTask id with
  | none => rw [onFileReady_eq_of_none hfio]; exact h
  | some t =>
      by_cases hg : (t.watching && t.dispatch_state == IOTaskState.idle) = true
      · have hg' := hg
        simp only [Bool.and_eq_true, beq_iff_eq] at hg'
        rw [onFileReady_eq_of_armed hfio hg'.1 hg'.2]
        refine WF_map_io h _ ?_
        intro u
        by_cases hm : u.task_id == id <;> simp [hm]
      · rw [onFileReady_eq_of_unarmed hfio (Bool.not_eq_true _ ▸ hg)]
        exact h

theorem WF_onFileReadyPostedTask {st : Reactor} (h : st.WF) (id : TaskId) :
    WF (st.OnFileReadyPostedTask id).1 := by
  cases hfio : st.findIOTask id with
  | none => rw [onFileReadyPostedTask_eq_of_none hfio]; exact h
  | some t =>
      cases hds : t.dispatch_state with
      | idle => rw [onFileReadyPostedTask_eq_of_idle hfio hds]; exact h
      | canceledPendingDrain =>
          rw [onFileReadyPostedTask_eq_of_drain hfio hds]; exact WF_eraseIOTask h id
      | pendingDispatch =>
          cases hp : t.persistent with
          | true =>
              rw [onFileReadyPostedTask_eq_of_persistent hfio hds hp]
              refine WF_map_io h _ ?_
              intro u
              by_cases hm : u.task_id == id <;> simp [hm]
          | false =>
              rw [onFileReadyPostedTask_eq_of_oneshot hfio hds hp]
              exact WF_eraseIOTask h id

theorem WF_step {st : Reactor} (h : st.WF) (e : Event) : WF (st.step e).1 := by
  cases e with
  | postDelayed location closure delay => exact WF_postDelayed h location closure delay
  | watchFd location fd mode persistent closure armOk =>
      exact WF_watchFd h location fd mode persistent closure armOk
  | cancel id => exact WF_cancel h id
  | timerFire id =>
      show WF (st.OnRanPostedTask id).1
      exact WF_onRanPostedTask h id
  | fdReady id => exact WF_onFileReady h id
  | runPostedDispatch id => exact WF_onFileReadyPostedTask h id
  | breakLoop => exact h
  | tick => exact h

end Reactor

end Brillo

namespace Brillo

namespace Reactor


theorem persLive_postDelayed {st : Reactor} {id : TaskId} {cl : Nat}
    (h : persLive st id cl) (location closure delay : Nat) :
    persLive (st.PostDelayedTask location closure delay).2 id cl := by
  rw [postDelayedTask_eq]
  exact h

theorem persLive_watchFd {st : Reactor} {id : TaskId} {cl : Nat}
    (h : persLive st id cl) (location : Nat) (fd : Int) (mode : WatchMode)
    (persistent : Bool) (closure : Nat) (armOk : Bool) :
    persLive (st.WatchFileDescriptor location fd mode persistent closure armOk).2 id cl := by
  cases armOk with
  | false => rw [watchFileDescriptor_eq_failed]; exact h
  | true =>
      rw [watchFileDescriptor_eq_armed]
      rcases h with ⟨t, ht, hrest⟩
      exact ⟨t, List.mem_cons_of_mem _ ht, hrest⟩

theorem persLive_erase_ne {st : Reactor} {id : TaskId} {cl : Nat}
    (h : persLive st id cl) {id' : TaskId} (hne : id' ≠ id) :
    persLive { st with io_tasks := st.eraseIOTask id' } id cl := by
  rcases h with ⟨t, ht, htid, hrest⟩
  refine ⟨t, ?_, htid, hrest⟩
  refine List.mem_filter.mpr ⟨ht, ?_⟩
  simp only [Bool.not_eq_eq_eq_not, Bool.not_true, beq_eq_false_iff_ne, ne_eq]
  rw [htid]
  exact fun hc => hne hc.symm

theorem persLive_map_unmatched {st : Reactor} {id : TaskId} {cl : Nat}
    (h : persLive st id cl) (f : IOTask → IOTask) {id' : TaskId} (hne : id' ≠ id)
    (hf : ∀ u, u.task_id ≠ id' → f u = u) :
    persLive { st with io_tasks := st.io_tasks.map f } id cl := by
  rcases h with ⟨t, ht, htid, hrest⟩
  refine ⟨t, ?_, htid, hrest⟩
  have : f t = t := hf t (by rw [htid]; exact fun hc => hne hc.symm)
  rw [← this]
  exact List.mem_map_of_mem f ht

theorem persLive_cancel_ne {st : Reactor} {id : TaskId} {cl : Nat}
    (h : persLive st id cl) {id' : TaskId} (hne : id' ≠ id) :
    persLive (st.CancelTask id').2 id cl := by
  cases hfd : st.findDelayed id' with
  | some t => rw [cancelTask_eq_of_delayed hfd]; rcases h with ⟨t', ht', hr⟩; exact ⟨t', ht', hr⟩
  | none =>
      cases hfio : st.findIOTask id' with
      | none => rw [cancelTask_eq_of_none hfd hfio]; exact h
      | some t =>
          cases hds : t.dispatch_state with
          | idle =>
              rw [cancelTask_eq_of_io_idle hfd hfio hds]
              exact persLive_erase_ne h hne
          | pendingDispatch =>
              rw [cancelTask_eq_of_io_pending hfd hfio hds]
              refine persLive_map_unmatched h _ hne ?_
              intro u hu
              have hb : (u.task_id == id') = false := by simp [hu]
              simp [hb]
          | canceledPendingDrain =>
              rw [cancelTask_eq_of_io_drain hfd hfio hds]; exact h

theorem persLive_onRanPostedTask {st : Reactor} {id : TaskId} {cl : Nat}
    (h : persLive st id cl) (id' : TaskId) :
    persLive (st.OnRanPostedTask id').1 id cl := by
  cases hfd : st.findDelayed id' with
  | some t => rw [onRanPostedTask_eq_of_some hfd]; rcases h with ⟨t', ht', hr⟩; exact ⟨t', ht', hr⟩
  | none => rw [onRanPostedTask_eq_of_none hfd]; exact h

theorem persLive_onFileReady {st : Reactor} {id : TaskId} {cl : Nat}
    (hwf : st.WF) (h : persLive st id cl) (id' : TaskId) :
    persLive (st.OnFileReady id') id cl := by
  cases hfio : st.findIOTask id' with
  | none => rw [onFileReady_eq_of_none hfio]; exact h
  | some t =>
      by_cases hg : (t.watching && t.dispatch_state == IOTaskState.idle) = true
      · have hg' := hg
        simp only [Bool.and_eq_true, beq_iff_eq] at hg'
        rw [onFileReady_eq_of_armed hfio hg'.1 hg'.2]
        by_cases hid' : id' = id
        · subst hid'
          rcases h with ⟨u, hu, huid, hup, hucl, hud⟩
          obtain ⟨ht, htid⟩ := findIOTask_some_facts hfio
          have : u = t := mem_key_unique (fun v : IOTask => v.task_id) hwf.2.2.2.1 hu ht
            (by show u.task_id = t.task_id; rw [huid, htid])
          subst this
          refine ⟨{ u with watching := false, dispatch_state := .pendingDispatch }, ?_,
            huid, hup, hucl, by intro hc; cases hc⟩
          have hmem := List.mem_map_of_mem (fun v =>
            if v.task_id == id' then
              { v with watching := false, dispatch_state := IOTaskState.pendingDispatch }
            else v) hu
          simpa [huid] using hmem
        · refine persLive_map_unmatched h _ hid' ?_
          intro u hu
          have hb : (u.task_id == id') = false := by simp [hu]
          simp [hb]
      · rw [onFileReady_eq_of_unarmed hfio (Bool.not_eq_true _ ▸ hg)]
        exact h

theorem persLive_onFileReadyPostedTask {st : Reactor} {id : TaskId} {cl : Nat}
    (hwf : st.WF) (h : persLive st id cl) (id' : TaskId) :
    persLive (st.OnFileReadyPostedTask id').1 id cl := by
  cases hfio : st.findIOTask id' with
  | none => rw [onFileReadyPostedTask_eq_of_none hfio]; exact h
  | some t =>
      cases hds : t.dispatch_state with
      | idle => rw [onFileReadyPostedTask_eq_of_idle hfio hds]; exact h
      | canceledPendingDrain =>
          rw [onFileReadyPostedTask_eq_of_drain hfio hds]
          by_cases hid' : id' = id
          · exfalso
            subst hid'
            rcases h with ⟨u, hu, huid, _, _, hud⟩
            obtain ⟨ht, htid⟩ := findIOTask_some_facts hfio
            have : u = t := mem_key_unique (fun v : IOTask => v.task_id) hwf.2.2.2.1 hu ht
              (by show u.task_id = t.task_id; rw [huid, htid])
            subst this
            exact hud hds
          · exact persLive_erase_ne h hid'
      | pendingDispatch =>
          cases hp : t.persistent with
          | true =>
              rw [onFileReadyPostedTask_eq_of_persistent hfio hds hp]
              by_cases hid' : id' = id
              · subst hid'
                rcases h with ⟨u, hu, huid, hup, hucl, hud⟩
                obtain ⟨ht, htid⟩ := findIOTask_some_facts hfio
                have : u = t := mem_key_unique (fun v : IOTask => v.task_id) hwf.2.2.2.1 hu ht
                  (by show u.task_id = t.task_id; rw [huid, htid])
                subst this
                refine ⟨{ u with watching := true, dispatch_state := .idle }, ?_,
                  huid, hup, hucl, by intro hc; cases hc⟩
                have hmem := List.mem_map_of_mem (fun v =>
                  if v.task_id == id' then
                    { v with watching := true, dispatch_state := IOTaskState.idle }
                  else v) hu
                simpa [huid] using hmem
              · refine persLive_map_unmatched h _ hid' ?_
                intro u hu
                have hb : (u.task_id == id') = false := by simp [hu]
                simp [hb]
          | false =>
              rw [onFileReadyPostedTask_eq_of_oneshot hfio hds hp]
              by_cases hid' : id' = id
              · exfalso
                subst hid'
                rcases h with ⟨u, hu, huid, hup, _, _⟩
                obtain ⟨ht, htid⟩ := findIOTask_some_facts hfio
                have : u = t := mem_key_unique (fun v : IOTask => v.task_id) hwf.2.2.2.1 hu ht
                  (by show u.task_id = t.task_id; rw [huid, htid])
                subst this
                rw [hup] at hp
                cases hp
              · exact persLive_erase_ne h hid'

theorem persLive_step {st : Reactor} {id : TaskId} {cl : Nat}
    (hwf : st.WF) (h : persLive st id cl) (e : Event) (hne : e ≠ Event.cancel id) :
    persLive (st.step e).1 id cl := by
  cases e with
  | postDelayed location closure delay => exact persLive_postDelayed h location closure delay
  | watchFd location fd mode persistent closure armOk =>
      exact persLive_watchFd h location fd mode persistent closure armOk
  | cancel id' =>
      refine persLive_cancel_ne h ?_
      intro hc
      exact hne (by rw [hc])
  | timerFire id' =>
      show persLive (st.OnRanPostedTask id').1 id cl
      exact persLive_onRanPostedTask h id'
  | fdReady id' => exact persLive_onFileReady hwf h id'
  | runPostedDispatch id' => exact persLive_onFileReadyPostedTask hwf h id'
  | breakLoop => exact h
  | tick => exact h

theorem persLive_runEvents {id : TaskId} {cl : Nat} :
    ∀ (evs : List Event) (st : Reactor), st.WF → persLive st id cl →
      (∀ e ∈ evs, e ≠ Event.cancel id) →
      persLive (st.runEvents evs).1 id cl := by
  intro evs
  induction evs with
  | nil => intro st _ h _; exact h
  | cons e es ih =>
      intro st hwf h hne
      simp only [runEvents]
      exact ih (st.step e).1 (WF_step hwf e)
        (persLive_step hwf h e (hne e (List.mem_cons_self _ _)))
        (fun e' he' => hne e' (List.mem_cons_of_mem _ he'))

end Reactor

end Brillo

namespace Brillo

namespace Reactor

theorem iterTaskIds_eq (st : Reactor) : ∀ n, st.iterTaskIds n =
    (List.range n).map (fun k => st.last_id + k + 1)
  | 0 => by simp [iterTaskIds]
  | n + 1 => by
      show (st.last_id + 1) :: iterTaskIds { st with last_id := st.last_id + 1 } n = _
      rw [iterTaskIds_eq { st with last_id := st.last_id + 1 } n]
      rw [List.range_succ_eq_map, List.map_cons, List.map_map]
      refine congrArg₂ _ (by ring) ?_
      refine List.map_congr_left ?_
      intro k _
      show st.last_id + 1 + k + 1 = st.last_id + (k + 1) + 1
      ring

theorem iterTaskIds_strict_mono (st : Reactor) (n : Nat) :
    (st.iterTaskIds n).Pairwise (fun a b => a < b) := by
  rw [iterTaskIds_eq]
  rw [List.pairwise_map]
  have := List.pairwise_lt_range n
  refine this.imp ?_
  intro a b hab
  show st.last_id + a + 1 < st.last_id + b + 1
  exact Nat.add_lt_add_right (Nat.add_lt_add_left hab _) _

theorem iterTaskIds_not_null (st : Reactor) (n : Nat) :
    kTaskIdNull ∉ st.iterTaskIds n := by
  rw [iterTaskIds_eq]
  intro hc
  rcases List.mem_map.mp hc with ⟨k, _, hk⟩
  exact Nat.succ_ne_zero _ hk

theorem iterTaskIds_above_cursor (st : Reactor) (n : Nat) :
    ∀ i ∈ st.iterTaskIds n, st.last_id < i := by
  rw [iterTaskIds_eq]
  intro i hi
  rcases List.mem_map.mp hi with ⟨k, _, hk⟩
  rw [← hk]
  show st.last_id < st.last_id + k + 1
  exact Nat.lt_succ_of_le (Nat.le_add_right _ _)

theorem outstanding_false_iff {st : Reactor} :
    st.outstanding = false ↔ st.delayed_tasks = [] ∧ st.io_tasks = [] := by
  unfold outstanding
  cases hd : st.delayed_tasks <;> cases hio : st.io_tasks <;> simp

theorem runOnce_blocked_imp {st : Reactor} {mb : Bool}
    (h : (st.RunOnce mb).blocked = true) : mb = true ∧ st.outstanding = true := by
  unfold RunOnce at h
  cases hpd : st.pendingDispatchEntry with
  | some t => rw [hpd] at h; simp at h
  | none =>
      rw [hpd] at h
      cases hdue : st.dueDelayed with
      | some t => rw [hdue] at h; simp at h
      | none =>
          rw [hdue] at h
          by_cases hb : (mb && st.outstanding) = true
          · simp only [Bool.and_eq_true] at hb
            exact hb
          · rw [Bool.not_eq_true] at hb
            rw [hb] at h
            simp at h

theorem runOnce_work_remaining {st : Reactor} (mb : Bool) :
    (st.RunOnce mb).work_remaining = (st.RunOnce mb).state.outstanding := by
  unfold RunOnce
  cases hpd : st.pendingDispatchEntry with
  | some t => rfl
  | none =>
      cases hdue : st.dueDelayed with
      | some t => rfl
      | none =>
          by_cases hb : (mb && st.outstanding) = true
          · rw [hb]
            cases hnd : st.nextDue with
            | some t => rfl
            | none => rfl
          · rw [Bool.not_eq_true] at hb
            rw [hb]
            rfl

theorem runOnce_idle {st : Reactor} (hd : st.delayed_tasks = [])
    (hio : st.io_tasks = []) :
    st.RunOnce false = ⟨false, false, st, none⟩ := by
  have hpd : st.pendingDispatchEntry = none := by
    unfold pendingDispatchEntry
    rw [hio]
    rfl
  have hdue : st.dueDelayed = none := by
    unfold dueDelayed
    rw [nextDue_eq_none.mpr hd]
  have hout : st.outstanding = false := outstanding_false_iff.mpr ⟨hd, hio⟩
  unfold RunOnce
  rw [hpd, hdue, hout]
  simp

end Reactor

end Brillo

namespace Chromeos
namespace Http


namespace Request

theorem sendRequestIfNeeded_no_transport {rq : Request} (h : rq.transport = none) :
    rq.SendRequestIfNeeded = (false, rq, some responseAlreadyReceivedError) := by
  unfold SendRequestIfNeeded
  rw [h]
  rfl

theorem sendRequestIfNeeded_with_connection {rq : Request} {tr : Transport}
    {c : Connection} (ht : rq.transport = some tr) (hc : rq.connection = some c) :
    rq.SendRequestIfNeeded = (true, rq, none) := by
  unfold SendRequestIfNeeded
  rw [ht, hc]

theorem sendRequestIfNeeded_create_ok {rq : Request} {tr : Transport}
    {c : Connection} (ht : rq.transport = some tr) (hc : rq.connection = none)
    (hcr : tr.createConnectionResult = some c) :
    rq.SendRequestIfNeeded = (true, { rq with connection := some c }, none) := by
  unfold SendRequestIfNeeded
  rw [ht, hc]
  simp [Transport.CreateConnection, hcr]

theorem sendRequestIfNeeded_create_fail {rq : Request} {tr : Transport}
    (ht : rq.transport = some tr) (hc : rq.connection = none)
    (hcr : tr.createConnectionResult = none) :
    rq.SendRequestIfNeeded = (false, rq, tr.createConnectionError) := by
  unfold SendRequestIfNeeded
  rw [ht, hc]
  simp [Transport.CreateConnection, hcr]

theorem getResponseAndBlock_no_transport {rq : Request} (h : rq.transport = none) :
    rq.GetResponseAndBlock = (none, rq, some responseAlreadyReceivedError) := by
  unfold GetResponseAndBlock
  rw [sendRequestIfNeeded_no_transport h]
  simp

theorem addRequestBody_no_transport {rq : Request} (h : rq.transport = none)
    (data : List Nat) :
    rq.AddRequestBody data = (false, rq, some responseAlreadyReceivedError) := by
  unfold AddRequestBody
  rw [sendRequestIfNeeded_no_transport h]
  simp

theorem sendRequestIfNeeded_true_connection {rq : Request}
    (h : (rq.SendRequestIfNeeded).1 = true) :
    ∃ c, (rq.SendRequestIfNeeded).2.1.connection = some c := by
  cases htr : rq.transport with
  | none => rw [sendRequestIfNeeded_no_transport htr] at h; cases h
  | some tr =>
      cases hc : rq.connection with
      | some c => rw [sendRequestIfNeeded_with_connection htr hc]; exact ⟨c, hc⟩
      | none =>
          cases hcr : tr.createConnectionResult with
          | some c => rw [sendRequestIfNeeded_create_ok htr hc hcr]; exact ⟨c, rfl⟩
          | none => rw [sendRequestIfNeeded_create_fail htr hc hcr] at h; cases h

theorem getResponseAndBlock_eq_success {rq : Request} {c : Connection}
    (hok : (rq.SendRequestIfNeeded).1 = true)
    (hc : (rq.SendRequestIfNeeded).2.1.connection = some c)
    (hf : c.finishRequestOk = true) :
    rq.GetResponseAndBlock =
      (some (Response.make (some c)),
       { (rq.SendRequestIfNeeded).2.1 with connection := none, transport := none },
       none) := by
  unfold GetResponseAndBlock
  simp only [hok, if_true, hc, hf]

theorem getResponseAndBlock_some_clears {rq : Request} {resp : Response}
    {rq' : Request} {err : Option HttpError}
    (h : rq.GetResponseAndBlock = (some resp, rq', err)) :
    rq'.transport = none ∧ rq'.connection = none := by
  by_cases hok : (rq.SendRequestIfNeeded).1 = true
  · cases hc : (rq.SendRequestIfNeeded).2.1.connection with
    | none =>
        unfold GetResponseAndBlock at h
        simp only [hok, if_true, hc] at h
        simp at h
    | some c =>
        by_cases hf : c.finishRequestOk = true
        · rw [getResponseAndBlock_eq_success hok hc hf] at h
          simp only [Prod.mk.injEq] at h
          rw [← h.2.1]
          exact ⟨rfl, rfl⟩
        · unfold GetResponseAndBlock at h
          rw [Bool.not_eq_true] at hf
          simp only [hok, if_true, hc, hf, Bool.false_eq_true, if_false] at h
          simp at h
  · unfold GetResponseAndBlock at h
    rw [Bool.not_eq_true] at hok
    simp only [hok, Bool.false_eq_true, if_false] at h
    simp at h

end Request

end Http
end Chromeos

namespace Brillo


/-- C1: for every task id, the dispatch routine `OnRanPostedTask` looks the id
up in the delayed-task registry: if an entry is present it removes that entry
and invokes its callback (the returned DelayedTask, whose closure is run); if
no entry is present — the task was already canceled or already fired — it does
nothing: no callback runs and the Reactor state, registries included, is
unchanged. -/
theorem c1_onRanPostedTask_dispatch (st : Reactor) (id : TaskId) :
    (∀ t : DelayedTask, st.findDelayed id = some t →
       st.OnRanPostedTask id =
         ({ st with delayed_tasks := st.eraseDelayed id }, some t)) ∧
    (st.findDelayed id = none → st.OnRanPostedTask id = (st, none)) :=
  ⟨fun _ h => Reactor.onRanPostedTask_eq_of_some h,
   fun h => Reactor.onRanPostedTask_eq_of_none h⟩

theorem c1_witness :
    stC1.findDelayed 1 = some ⟨0, 1, 5, 101⟩ ∧
    stC1.OnRanPostedTask 1 =
      ({ stC1 with delayed_tasks := stC1.eraseDelayed 1 }, some ⟨0, 1, 5, 101⟩) ∧
    stC1.findDelayed 7 = none ∧
    stC1.OnRanPostedTask 7 = (stC1, none) :=
  ⟨by decide, (c1_onRanPostedTask_dispatch stC1 1).1 ⟨0, 1, 5, 101⟩ (by decide),
   by decide, (c1_onRanPostedTask_dispatch stC1 7).2 (by decide)⟩

/-- C2: once `CancelTask(task_id)` has returned true, the callback associated
with `task_id` is never invoked at any later step, whatever sequence of events
follows — including a stale OS-level timer firing for that id, and including a
pending `OnFileReadyPostedTask` follow-up dispatch for that watch, which
becomes a no-op rather than a callback invocation. -/
theorem c2_cancel_true_never_invoked (st : Reactor) (id : TaskId) (hwf : st.WF)
    (hc : (st.CancelTask id).1 = true) (evs : List Event) (c : Nat) :
    (id, c) ∉ ((st.CancelTask id).2.runEvents evs).2 :=
  Reactor.runEvents_retired_no_invoke evs _
    (Reactor.cancelTask_true_retired hwf hc) c

theorem c2_witness :
    stC2.WF ∧ (stC2.CancelTask 1).1 = true ∧
    (1, 201) ∉ ((stC2.CancelTask 1).2.runEvents
      [Event.runPostedDispatch 1, Event.timerFire 1, Event.fdReady 1,
       Event.runPostedDispatch 1]).2 :=
  ⟨by decide, by decide,
   c2_cancel_true_never_invoked stC2 1 (by decide) (by decide)
     [Event.runPostedDispatch 1, Event.timerFire 1, Event.fdReady 1,
      Event.runPostedDispatch 1] 201⟩

/-- C3: when the loop pumps the delayed-task registry, the wait primitive
reports the earliest deadline first, ties broken by lower TaskId (allocation
order), so the fired sequence is pairwise ordered by `taskLE`: for every pair
of outstanding delayed tasks the earlier deadline's callback is invoked first.
Every outstanding task fires exactly once (the fired sequence is a permutation
of the registry) and the registry is left empty, so posts with distinct delays
fire in ascending delay order. -/
theorem c3_delayed_firing_order (st : Reactor) (hwf : st.WF) :
    st.runDelayed.1.Pairwise taskLE ∧
    st.runDelayed.1.Perm st.delayed_tasks ∧
    st.runDelayed.2.delayed_tasks = [] := by
  unfold Reactor.runDelayed
  exact Reactor.runDelayedFuel_sorted_perm _ st hwf (Nat.le_refl _)

theorem c3_witness :
    stC3.WF ∧
    (stC3.runDelayed.1.Pairwise taskLE ∧
     stC3.runDelayed.1.Perm stC3.delayed_tasks ∧
     stC3.runDelayed.2.delayed_tasks = []) ∧
    stC3.runDelayed.1.map (fun t => t.closure) = [102, 101] :=
  ⟨by decide, c3_delayed_firing_order stC3 (by decide), by decide⟩

end Brillo

namespace Brillo

/-- C4: for a watch entry whose follow-up dispatch is pending, running the
dispatch invokes its callback once; if the watch was registered with
`persistent = false`, the entry is removed from the registry immediately after
that single invocation and — the id being dead in both registries — its
callback is never invoked again by any later events, so it runs at most once;
if `persistent = true`, the watch re-arms (the entry stays registered, watching
and idle) and remains live in the registry through every later event until it
is explicitly canceled. -/
theorem c4_watch_semantics (st : Reactor) (id : TaskId) (t : IOTask) (hwf : st.WF)
    (hfio : st.findIOTask id = some t)
    (hpend : t.dispatch_state = .pendingDispatch) :
    (t.persistent = false →
       st.OnFileReadyPostedTask id =
         ({ st with io_tasks := st.eraseIOTask id }, some (id, t.closure)) ∧
       ∀ (evs : List Event) (c : Nat),
         (id, c) ∉ (({ st with io_tasks := st.eraseIOTask id } : Reactor).runEvents evs).2) ∧
    (t.persistent = true →
       (st.OnFileReadyPostedTask id).2 = some (id, t.closure) ∧
       (st.OnFileReadyPostedTask id).1.findIOTask id =
         some { t with watching := true, dispatch_state := .idle } ∧
       ∀ evs : List Event, (∀ e ∈ evs, e ≠ Event.cancel id) →
         Reactor.persLive ((st.OnFileReadyPostedTask id).1.runEvents evs).1 id t.closure) := by
  obtain ⟨ht, htid⟩ := Reactor.findIOTask_some_facts hfio
  constructor
  · intro hp
    refine ⟨Reactor.onFileReadyPostedTask_eq_of_oneshot hfio hpend hp, ?_⟩
    intro evs c
    refine Reactor.runEvents_retired_no_invoke evs _ ?_ c
    refine ⟨?_, ?_, htid ▸ (hwf.2.1 t ht).2⟩
    · intro u hu
      exact fun hc => hwf.2.2.2.2 u hu t ht (hc.trans htid.symm)
    · intro u hu
      have := (List.mem_filter.mp hu).2
      intro hc
      rw [hc] at this
      simp at this
  · intro hp
    have heq := Reactor.onFileReadyPostedTask_eq_of_persistent hfio hpend hp
    have hwf' : Reactor.WF (st.OnFileReadyPostedTask id).1 :=
      Reactor.WF_onFileReadyPostedTask hwf id
    have hmem : ({ t with watching := true, dispatch_state := IOTaskState.idle } : IOTask) ∈
        (st.OnFileReadyPostedTask id).1.io_tasks := by
      rw [heq]
      have := List.mem_map_of_mem (fun u : IOTask =>
        if u.task_id == id then
          { u with watching := true, dispatch_state := IOTaskState.idle }
        else u) ht
      simpa [htid] using this
    refine ⟨by rw [heq], ?_, ?_⟩
    · have hfind := Reactor.findIOTask_of_mem hwf'.2.2.2.1 hmem
      nth_rewrite 1 [htid] at hfind
      exact hfind
    · intro evs hne
      refine Reactor.persLive_runEvents evs _ hwf' ?_ hne
      exact ⟨{ t with watching := true, dispatch_state := IOTaskState.idle }, hmem,
        htid, hp, rfl, by intro hc; cases hc⟩

theorem c4_witness :
    (stC4a.OnFileReadyPostedTask 1 =
       ({ stC4a with io_tasks := stC4a.eraseIOTask 1 }, some (1, 201)) ∧
     (1, 201) ∉ (({ stC4a with io_tasks := stC4a.eraseIOTask 1 } : Reactor).runEvents
       [Event.timerFire 1, Event.runPostedDispatch 1]).2) ∧
    ((stC4b.OnFileReadyPostedTask 1).2 = some (1, 202) ∧
     Reactor.persLive ((stC4b.OnFileReadyPostedTask 1).1.runEvents
       [Event.fdReady 1, Event.runPostedDispatch 1]).1 1 202) := by
  have h1 := (c4_watch_semantics stC4a 1
    ⟨0, 1, 3, .kWatchRead, false, 201, false, .pendingDispatch⟩
    (by decide) (by decide) (by decide)).1 (by decide)
  have h2 := (c4_watch_semantics stC4b 1
    ⟨0, 1, 4, .kWatchWrite, true, 202, false, .pendingDispatch⟩
    (by decide) (by decide) (by decide)).2 (by decide)
  exact ⟨⟨h1.1, h1.2 [Event.timerFire 1, Event.runPostedDispatch 1] 201⟩,
    ⟨h2.1, h2.2.2 [Event.fdReady 1, Event.runPostedDispatch 1] (by decide)⟩⟩

end Brillo

namespace Brillo

/-- C5: `NextTaskId()` returns `last_id + 1`: an identifier strictly greater
than the cursor (hence, the cursor bounding every previously issued id,
strictly greater than all of them), never equal to the null sentinel; its only
side effect is advancing the cursor.  Across any number of successive calls the
returned identifiers are strictly increasing — so none is ever reused — never
null, and all lie strictly above the starting cursor. -/
theorem c5_nextTaskId_contract (st : Reactor) :
    (st.NextTaskId).1 = st.last_id + 1 ∧
    (st.NextTaskId).1 ≠ kTaskIdNull ∧
    st.last_id < (st.NextTaskId).1 ∧
    (st.NextTaskId).2 = { st with last_id := st.last_id + 1 } ∧
    (∀ n, (st.iterTaskIds n).Pairwise (fun a b => a < b)) ∧
    (∀ n, kTaskIdNull ∉ st.iterTaskIds n) ∧
    (∀ n, ∀ i ∈ st.iterTaskIds n, st.last_id < i) :=
  ⟨rfl, Nat.succ_ne_zero _, Nat.lt_succ_of_le (Nat.le_refl _), rfl,
   fun n => Reactor.iterTaskIds_strict_mono st n,
   fun n => Reactor.iterTaskIds_not_null st n,
   fun n => Reactor.iterTaskIds_above_cursor st n⟩

/-- C6: `CancelTask` on a task id that was never issued (it lies above the
allocator cursor of a well-formed Reactor), or whose task already fired or was
already canceled (the id is absent from both registries, or only a drained
watch husk carries it), returns false and leaves the entire Reactor state
unchanged; indeed whenever `CancelTask` returns false the state is unchanged. -/
theorem c6_cancel_unknown_noop (st : Reactor) (id : TaskId) :
    ((st.findDelayed id = none →
      (st.findIOTask id = none ∨
       ∃ t, st.findIOTask id = some t ∧ t.dispatch_state = .canceledPendingDrain) →
      st.CancelTask id = (false, st))) ∧
    (st.WF → st.last_id < id → st.CancelTask id = (false, st)) ∧
    ((st.CancelTask id).1 = false → (st.CancelTask id).2 = st) := by
  have part1 : st.findDelayed id = none →
      (st.findIOTask id = none ∨
       ∃ t, st.findIOTask id = some t ∧ t.dispatch_state = .canceledPendingDrain) →
      st.CancelTask id = (false, st) := by
    intro hd hio
    rcases hio with hio | ⟨t, hio, hds⟩
    · exact Reactor.cancelTask_eq_of_none hd hio
    · exact Reactor.cancelTask_eq_of_io_drain hd hio hds
  refine ⟨part1, ?_, ?_⟩
  · intro hwf hgt
    refine part1 ?_ (Or.inl ?_)
    · rw [Reactor.findDelayed_eq_none_iff]
      intro t ht hc
      exact absurd ((hwf.1 t ht).2) (by rw [hc]; exact Nat.not_le_of_lt hgt)
    · rw [Reactor.findIOTask_eq_none_iff]
      intro t ht hc
      exact absurd ((hwf.2.1 t ht).2) (by rw [hc]; exact Nat.not_le_of_lt hgt)
  · intro hfalse
    cases hfd : st.findDelayed id with
    | some t =>
        rw [Reactor.cancelTask_eq_of_delayed hfd] at hfalse
        cases hfalse
    | none =>
        cases hfio : st.findIOTask id with
        | none => rw [Reactor.cancelTask_eq_of_none hfd hfio]
        | some t =>
            cases hds : t.dispatch_state with
            | idle =>
                rw [Reactor.cancelTask_eq_of_io_idle hfd hfio hds] at hfalse
                cases hfalse
            | pendingDispatch =>
                rw [Reactor.cancelTask_eq_of_io_pending hfd hfio hds] at hfalse
                cases hfalse
            | canceledPendingDrain =>
                rw [Reactor.cancelTask_eq_of_io_drain hfd hfio hds]

theorem c6_witness :
    stC1.CancelTask 7 = (false, stC1) ∧
    stC1.CancelTask 9 = (false, stC1) ∧
    ((stC1.CancelTask 7).1 = false → (stC1.CancelTask 7).2 = stC1) :=
  ⟨(c6_cancel_unknown_noop stC1 7).1 (by decide) (Or.inl (by decide)),
   (c6_cancel_unknown_noop stC1 9).2.1 (by decide) (by decide),
   fun h => (c6_cancel_unknown_noop stC1 7).2.2 h⟩

/-- C7: `RunOnce(may_block)` performs at most one unit of dispatch per
iteration; it enters the blocking wait only when `may_block` is true and at
least one task or watch is outstanding; the boolean it returns reports whether
any unit of work remains pending after the iteration; and with nothing
outstanding — no pending timer, no descriptor watch — `RunOnce(false)` returns
immediately without blocking, reporting no work and leaving the state
untouched. -/
theorem c7_runOnce_contract (st : Reactor) (mb : Bool) :
    ((st.RunOnce mb).blocked = true → mb = true ∧ st.outstanding = true) ∧
    ((st.RunOnce mb).work_remaining = (st.RunOnce mb).state.outstanding) ∧
    (st.delayed_tasks = [] → st.io_tasks = [] →
       st.RunOnce false = ⟨false, false, st, none⟩) :=
  ⟨fun h => Reactor.runOnce_blocked_imp h,
   Reactor.runOnce_work_remaining mb,
   fun hd hio => Reactor.runOnce_idle hd hio⟩

theorem c7_witness :
    ((stC3.RunOnce true).blocked = true) ∧
    (true = true ∧ stC3.outstanding = true) ∧
    ((stC3.RunOnce true).work_remaining = (stC3.RunOnce true).state.outstanding) ∧
    (Reactor.init.RunOnce false = ⟨false, false, Reactor.init, none⟩) :=
  ⟨by decide,
   (c7_runOnce_contract stC3 true).1 (by decide),
   (c7_runOnce_contract stC3 true).2.1,
   (c7_runOnce_contract Reactor.init false).2.2 (by decide) (by decide)⟩

/-- C8: the quit callback obtained from `QuitClosure` triggers `BreakLoop` when
the loop is running; when the loop is not running the obtained callback is the
empty one, and invoking it is a no-op that changes no Reactor state; moreover
even a live quit callback invoked on a loop that is no longer running leaves
the state unchanged, since `BreakLoop` is idempotent. -/
theorem c8_quitClosure_contract (st st' : Reactor) :
    (st.running = true → Reactor.runQuitCb st.QuitClosure st' = st'.BreakLoop) ∧
    (st.running = false → Reactor.runQuitCb st.QuitClosure st' = st') ∧
    (st'.running = false → Reactor.runQuitCb st.QuitClosure st' = st') := by
  have hbreak : st'.running = false → st'.BreakLoop = st' := by
    intro h
    unfold Reactor.BreakLoop
    cases st'
    simp only at h
    rw [h]
  refine ⟨?_, ?_, ?_⟩
  · intro h
    unfold Reactor.QuitClosure
    rw [h]
    rfl
  · intro h
    unfold Reactor.QuitClosure
    rw [h]
    rfl
  · intro h
    unfold Reactor.QuitClosure
    by_cases hr : st.running = true
    · rw [hr]
      show st'.BreakLoop = st'
      exact hbreak h
    · rw [Bool.not_eq_true] at hr
      rw [hr]
      rfl

theorem c8_witness :
    (Reactor.runQuitCb ({ Reactor.init with running := true } : Reactor).QuitClosure
       { Reactor.init with running := true } =
     ({ Reactor.init with running := true } : Reactor).BreakLoop) ∧
    (Reactor.runQuitCb Reactor.init.QuitClosure Reactor.init = Reactor.init) ∧
    (Reactor.runQuitCb ({ Reactor.init with running := true } : Reactor).QuitClosure
       Reactor.init = Reactor.init) :=
  ⟨(c8_quitClosure_contract { Reactor.init with running := true }
      { Reactor.init with running := true }).1 (by decide),
   (c8_quitClosure_contract Reactor.init Reactor.init).2.1 (by decide),
   (c8_quitClosure_contract { Reactor.init with running := true }
      Reactor.init).2.2 (by decide)⟩

end Brillo

namespace Chromeos
namespace Http


/-- C9: after `GetResponseAndBlock` returns a non-null Response, the request's
transport reference is cleared (the connection having been moved into the
Response), so every subsequent `GetResponseAndBlock` or `AddRequestBody` on
that Request fails — returning null, respectively false — reporting the error
code `response_already_received` in the http error domain, and leaves the
request unchanged: nothing further is sent on any connection. -/
theorem c9_response_already_received {rq : Request} {resp : Response}
    {rq' : Request} {err : Option HttpError}
    (h : rq.GetResponseAndBlock = (some resp, rq', err)) :
    rq'.transport = none ∧ rq'.connection = none ∧
    rq'.GetResponseAndBlock = (none, rq', some responseAlreadyReceivedError) ∧
    (∀ data : List Nat,
       rq'.AddRequestBody data = (false, rq', some responseAlreadyReceivedError)) ∧
    responseAlreadyReceivedError.domain = kErrorDomain ∧
    responseAlreadyReceivedError.code = "response_already_received" := by
  obtain ⟨ht, hc⟩ := Request.getResponseAndBlock_some_clears h
  exact ⟨ht, hc, Request.getResponseAndBlock_no_transport ht,
    fun data => Request.addRequestBody_no_transport ht data, rfl, rfl⟩

theorem c9_witness :
    rqW.GetResponseAndBlock = (some (Response.make (some connW)), rqWdone, none) ∧
    rqWdone.transport = none ∧
    rqWdone.GetResponseAndBlock = (none, rqWdone, some responseAlreadyReceivedError) ∧
    rqWdone.AddRequestBody [7] = (false, rqWdone, some responseAlreadyReceivedError) := by
  have h0 : rqW.GetResponseAndBlock = (some (Response.make (some connW)), rqWdone, none) := by
    decide
  have h := c9_response_already_received h0
  exact ⟨h0, h.1, h.2.2.1, h.2.2.2.1 [7]⟩

/-- C10: `Response::IsSuccessful` returns true exactly when the status code `c`
satisfies `100 ≤ c < 400` — informational 1xx and redirect 3xx responses count
as successful — and a Response constructed without a connection has status code
`-1`, hence is not successful. -/
theorem c10_isSuccessful_range (r : Response) :
    (r.IsSuccessful = true ↔
       status_code.Continue ≤ r.GetStatusCode ∧
       r.GetStatusCode < status_code.BadRequest) ∧
    (100 ≤ status_code.Continue ∧ status_code.Continue ≤ 100 ∧
     status_code.BadRequest = 400) ∧
    (r.connection = none → r.GetStatusCode = -1 ∧ r.IsSuccessful = false) := by
  refine ⟨?_, ⟨by decide, by decide, by decide⟩, ?_⟩
  · unfold Response.IsSuccessful
    rw [Bool.and_eq_true]
    rw [decide_eq_true_iff, decide_eq_true_iff]
  · intro h
    have hcode : r.GetStatusCode = -1 := by
      unfold Response.GetStatusCode
      rw [h]
    refine ⟨hcode, ?_⟩
    unfold Response.IsSuccessful
    rw [hcode]
    decide

theorem c10_witness :
    (Response.make none).GetStatusCode = -1 ∧
    (Response.make none).IsSuccessful = false ∧
    (Response.make (some connW)).IsSuccessful = true ∧
    (status_code.Continue ≤ (Response.make (some connW)).GetStatusCode ∧
     (Response.make (some connW)).GetStatusCode < status_code.BadRequest) := by
  have h1 := (c10_isSuccessful_range (Response.make none)).2.2 (by decide)
  have h2 := (c10_isSuccessful_range (Response.make (some connW))).1.mp (by decide)
  exact ⟨h1.1, h1.2, by decide, h2⟩

end Http
end Chromeos
